import Mathlib

/-! # LC-3 virtual machine (`VirtualMachine.c`)

A shallow embedding of the emulator: machine words are natural numbers with
explicit reduction modulo `2^16`, the global arrays `memory` and `reg` are
functions from indices to words, and every C function becomes a function on
an explicit `Machine` record.  Accesses of `memory` are checked against the
declared length of the array, so a function that can index outside it returns
in `Except Stuck`.
-/

namespace LC3

/-! ## Constants, enumerations -/

/-- `#define REGCOUNT 10` -/
abbrev REGCOUNT : Nat := 10
/-- `#define PC_START 0x3000` -/
abbrev PC_START : Nat := 0x3000
/-- `__UINT16_MAX__`, which is also the declared length of
`u_int16_t memory[__UINT16_MAX__]`: the valid indices are `0 .. 65534`. -/
abbrev UINT16_MAX : Nat := 65535

/-- `enum Registers`: indices into `reg`. -/
abbrev R0 : Nat := 0
abbrev R1 : Nat := 1
abbrev R2 : Nat := 2
abbrev R3 : Nat := 3
abbrev R4 : Nat := 4
abbrev R5 : Nat := 5
abbrev R6 : Nat := 6
abbrev R7 : Nat := 7
abbrev PC : Nat := 8
abbrev COND : Nat := 9

/-- `enum IstructionSet`: the enumerators take the values `0 .. 15` in
declaration order. -/
abbrev BR : Nat := 0
abbrev ADD : Nat := 1
abbrev LD : Nat := 2
abbrev ST : Nat := 3
abbrev JSR : Nat := 4
abbrev AND : Nat := 5
abbrev LDR : Nat := 6
abbrev STR : Nat := 7
abbrev RTI : Nat := 8
abbrev NOT : Nat := 9
abbrev LDI : Nat := 10
abbrev STI : Nat := 11
abbrev JMP : Nat := 12
abbrev RES : Nat := 13
abbrev LEA : Nat := 14
abbrev TRAP : Nat := 15

/-- `enum Conditions` -/
abbrev POS : Nat := 1 <<< 0
abbrev ZRO : Nat := 1 <<< 1
abbrev NEG : Nat := 1 <<< 2

/-- `enum TrapCodes` -/
abbrev GETC : Nat := 0x20
abbrev OUT : Nat := 0x21
abbrev PUTS : Nat := 0x22
abbrev IN : Nat := 0x23
abbrev PUTSP : Nat := 0x24
abbrev HALT : Nat := 0x25

/-- `enum States` -/
abbrev STOP : Nat := 0
abbrev RUN : Nat := 1

/-- `enum MemoryMappedRegister` -/
abbrev KBSR : Nat := 0xFE00
abbrev KBDR : Nat := 0xFE02

/-- `enum ReturnValues` -/
abbrev COMPLETED : Int := 0
abbrev WRONGSYNTAX : Int := -1
abbrev LOADFAIL : Int := -2
abbrev OPNOTDEFINED : Int := -3

/-! ## State -/

/-- Ways in which a function of the program can fail to produce a result. -/
inductive Stuck where
  /-- An element `memory[i]` with `i ≥ 65535` is read or written. -/
  | outOfBounds
  /-- In `readFile` the stream ends before the two bytes of the load address, so
  `startAddress` is used without ever having been assigned. -/
  | uninitialised
  /-- The bounded unrolling of a loop ran out of iterations (model only). -/
  | outOfFuel
  deriving DecidableEq, Repr

/-- The program's mutable state: the globals `memory`, `reg`, `state`, the
local `res` of `main`, and the two standard streams: the bytes still to be read
from `stdin`, the bytes written so far to `stdout`, and whether `stdin` has
reached its end of file (`stdinEof`).  While `stdinEof` is false and no byte
is left, the stream is open and idle. -/
structure Machine where
  memory : Nat → Nat
  reg : Nat → Nat
  state : Nat
  res : Int
  stdin : List Nat
  stdout : List Nat
  stdinEof : Bool

/-- What the C text leaves to the implementation.

* `signExtensionValue n bitCount` is the value that the call expression
  `signExtension(n, bitCount)` yields to its caller.  The body of
  `signExtension` ends without a `return` statement, so the source does not
  determine that value.
* `charSigned` tells whether plain `char` is a signed type. -/
structure Platform where
  signExtensionValue : Nat → Nat → Nat
  charSigned : Bool

/-- Array assignment `a[i] = v`. -/
def upd (a : Nat → Nat) (i v : Nat) : Nat → Nat :=
  fun j => if j = i then v else a j

/-- Conversion of an `int` to `u_int16_t`. -/
def toU16 (i : Int) : Nat := (i % 65536).toNat

/-- The bytes of a string literal. -/
def bytes (s : String) : List Nat := s.toList.map Char.toNat

/-- Every word of `memory` and every element of `reg` is a 16-bit value, as
their element type `u_int16_t` demands. -/
def Machine.WF (s : Machine) : Prop :=
  (∀ a, s.memory a < 65536) ∧ (∀ r, s.reg r < 65536)

/-! ## Standard streams -/

/-- `keyCheck`: `select` with a zero timeout on standard input; non-zero when a
read would not block, that is when a byte is pending or the end of file has
been reached. -/
def keyCheck (s : Machine) : Bool := !s.stdin.isEmpty || s.stdinEof

/-- `getchar()`: the next byte of `stdin` as an `int`.  The list holds every
byte the stream will deliver, so a call that finds none returns `EOF` (`-1`),
and the stream is at its end of file from then on. -/
def getchar (s : Machine) : Int × Machine :=
  match s.stdin with
  | [] => (-1, { s with stdinEof := true })
  | b :: rest => (((b % 256 : Nat) : Int), { s with stdin := rest })

/-- `putc(c, stdout)`: the byte written is `c` converted to `unsigned char`. -/
def putc (c : Int) (s : Machine) : Machine :=
  { s with stdout := s.stdout ++ [(c % 256).toNat] }

/-- `printf` of a string literal without conversions. -/
def printf (lit : String) (s : Machine) : Machine :=
  { s with stdout := s.stdout ++ bytes lit }

/-- Conversion of an `int` to plain `char`, then back to `int` by the integer
promotion of that `char`. -/
def toChar (P : Platform) (i : Int) : Int :=
  let b := i % 256
  if P.charSigned && decide (128 ≤ b) then b - 256 else b

/-! ## Memory access -/

/-- `memWrite`: `memory[address] = value;` -/
def memWrite (address value : Nat) (s : Machine) : Except Stuck Machine :=
  let address := address % 65536
  let value := value % 65536
  if address < UINT16_MAX then
    .ok { s with memory := upd s.memory address value }
  else .error .outOfBounds

/-- `memRead`: a read of `KBSR` first refreshes `memory[KBSR]` (and
`memory[KBDR]` when a key is pending); the result is `memory[address]`. -/
def memRead (address : Nat) (s : Machine) : Except Stuck (Nat × Machine) :=
  let address := address % 65536
  let s1 :=
    if address = KBSR then
      if keyCheck s then
        let s2 := { s with memory := upd s.memory KBSR ((1 <<< 15) % 65536) }
        let (c, s3) := getchar s2
        { s3 with memory := upd s3.memory KBDR (toU16 c) }
      else
        { s with memory := upd s.memory KBSR 0 }
    else s
  if address < UINT16_MAX then .ok (s1.memory address, s1)
  else .error .outOfBounds

/-! ## Sign extension and flags -/

/-- The value held by the parameter `n` of `signExtension` when control
reaches the closing brace of the function.  The shift `65535 << bitCount` is
taken in unbounded arithmetic and the assignment to `n` keeps its low 16 bits;
for `bitCount ≤ 15` that is the value of the `int` expression of the source. -/
def signExtensionLocal (n bitCount : Nat) : Nat :=
  if (n >>> (bitCount - 1)) &&& 1 ≠ 0 then
    ((65535 <<< bitCount) ||| n) % 65536
  else n

/-- `signExtension`.  The body only assigns to its own copy of `n`
(`signExtensionLocal`) and then falls off the end of the function: there is no
`return`.  The value the caller receives is therefore whatever the platform
hands back, converted to the return type `u_int16_t`. -/
def signExtension (P : Platform) (n bitCount : Nat) : Nat :=
  let _n := signExtensionLocal n bitCount
  P.signExtensionValue n bitCount % 65536

/-- `updateFlags` -/
def updateFlags (regID : Nat) (s : Machine) : Machine :=
  if s.reg regID = 0 then
    { s with reg := upd s.reg COND ZRO }
  else if s.reg regID >>> 15 = 1 then
    { s with reg := upd s.reg COND NEG }
  else
    { s with reg := upd s.reg COND POS }

/-! ## Instruction set -/

/-- `add` -/
def add (P : Platform) (instr : Nat) (s : Machine) : Machine :=
  let dr := (instr >>> 9) &&& 7
  let sr1 := (instr >>> 6) &&& 7
  let mode := (instr >>> 5) &&& 1
  let s1 :=
    if mode = 1 then
      let immediate := signExtension P (instr &&& 31) 5
      { s with reg := upd s.reg dr ((s.reg sr1 + immediate) % 65536) }
    else
      let sr2 := instr &&& 7
      { s with reg := upd s.reg dr ((s.reg sr1 + s.reg sr2) % 65536) }
  updateFlags dr s1

/-- `ldi` -/
def ldi (P : Platform) (instr : Nat) (s : Machine) : Except Stuck Machine := do
  let dr := (instr >>> 9) &&& 7
  let offset := signExtension P (instr &&& 511) 9
  let (ptr, s1) ← memRead (s.reg PC + offset) s
  let (v, s2) ← memRead ptr s1
  pure (updateFlags dr { s2 with reg := upd s2.reg dr v })

/-- `and` -/
def and (P : Platform) (instr : Nat) (s : Machine) : Machine :=
  let dr := (instr >>> 9) &&& 7
  let sr1 := (instr >>> 6) &&& 7
  let mode := (instr >>> 5) &&& 1
  let s1 :=
    if mode = 1 then
      let immediate := signExtension P (instr &&& 31) 5
      { s with reg := upd s.reg dr (s.reg sr1 &&& immediate) }
    else
      let sr2 := instr &&& 7
      { s with reg := upd s.reg dr (s.reg sr1 &&& s.reg sr2) }
  updateFlags dr s1

/-- `br` -/
def br (P : Platform) (instr : Nat) (s : Machine) : Machine :=
  let condFlags := (instr >>> 9) &&& 7
  let offset := signExtension P (instr &&& 511) 9
  if condFlags &&& s.reg COND ≠ 0 then
    { s with reg := upd s.reg PC ((s.reg PC + offset) % 65536) }
  else s

/-- `jmp` -/
def jmp (instr : Nat) (s : Machine) : Machine :=
  let baseReg := (instr >>> 6) &&& 7
  { s with reg := upd s.reg PC (s.reg baseReg) }

/-- `jsr` -/
def jsr (P : Platform) (instr : Nat) (s : Machine) : Machine :=
  let mode := (instr >>> 11) &&& 1
  let s1 := { s with reg := upd s.reg R7 (s.reg PC) }
  if mode = 0 then
    let s2 := { s1 with reg := upd s1.reg PC ((instr >>> 6) &&& 7) }
    { s2 with reg := upd s2.reg PC (s2.reg R1) }
  else
    let offset := signExtension P (instr &&& 2047) 11
    { s1 with reg := upd s1.reg PC ((s1.reg PC + offset) % 65536) }

/-- `ld` -/
def ld (P : Platform) (instr : Nat) (s : Machine) : Except Stuck Machine := do
  let dr := (instr >>> 9) &&& 7
  let offset := signExtension P (instr &&& 511) 9
  let (v, s1) ← memRead (s.reg PC + offset) s
  pure (updateFlags dr { s1 with reg := upd s1.reg dr v })

/-- `ldr` -/
def ldr (P : Platform) (instr : Nat) (s : Machine) : Except Stuck Machine := do
  let dr := (instr >>> 9) &&& 7
  let baseReg := (instr >>> 6) &&& 7
  let offset := signExtension P (instr &&& 63) 6
  let (v, s1) ← memRead (s.reg baseReg + offset) s
  pure (updateFlags dr { s1 with reg := upd s1.reg dr v })

/-- `lea` -/
def lea (P : Platform) (instr : Nat) (s : Machine) : Machine :=
  let dr := (instr >>> 9) &&& 7
  let offset := signExtension P (instr &&& 511) 9
  updateFlags dr { s with reg := upd s.reg dr ((s.reg PC + offset) % 65536) }

/-- `not`: the complement is taken on the promoted `int` and converted back to
16 bits. -/
def not (instr : Nat) (s : Machine) : Machine :=
  let dr := (instr >>> 9) &&& 7
  let sr := (instr >>> 6) &&& 7
  updateFlags dr { s with reg := upd s.reg dr (toU16 (-1 - (s.reg sr : Int))) }

/-- `st` -/
def st (P : Platform) (instr : Nat) (s : Machine) : Except Stuck Machine :=
  let sr := (instr >>> 9) &&& 7
  let offset := signExtension P (instr &&& 511) 9
  memWrite (s.reg PC + offset) (s.reg sr) s

/-- `sti` -/
def sti (P : Platform) (instr : Nat) (s : Machine) : Except Stuck Machine := do
  let sr := (instr >>> 9) &&& 7
  let offset := signExtension P (instr &&& 511) 9
  let (ptr, s1) ← memRead (s.reg PC + offset) s
  memWrite ptr (s1.reg sr) s1

/-- `str` -/
def str (P : Platform) (instr : Nat) (s : Machine) : Except Stuck Machine :=
  let sr := (instr >>> 9) &&& 7
  let baseReg := (instr >>> 6) &&& 7
  let offset := signExtension P (instr &&& 63) 6
  memWrite (s.reg baseReg + offset) (s.reg sr) s

/-! ## Trap routines -/

/-- The loop of `put`: `c` is the index of the word the pointer designates.
The pointer only moves upwards, so at most `65536` iterations can happen
before it leaves the array. -/
def putLoop : Nat → Nat → Machine → Except Stuck Machine
  | 0, _, _ => .error .outOfFuel
  | fuel + 1, c, s =>
    if c < UINT16_MAX then
      if s.memory c ≠ 0 then
        putLoop fuel (c + 1) (putc (s.memory c : Nat) s)
      else .ok s
    else .error .outOfBounds

/-- `put` (trap `PUTS`) -/
def put (s : Machine) : Except Stuck Machine :=
  putLoop 65536 (s.reg R0) s

/-- `get` (trap `GETC`) -/
def get (s : Machine) : Machine :=
  let (c, s1) := getchar s
  { s1 with reg := upd s1.reg R0 (toU16 c) }

/-- `out` (trap `OUT`) -/
def out (s : Machine) : Machine :=
  putc (s.reg R0) s

/-- `in` (trap `IN`); `in` is a reserved word here, hence the name. -/
def inTrap (P : Platform) (s : Machine) : Machine :=
  let s1 := printf "Enter a character ==> " s
  let (i, s2) := getchar s1
  let c := toChar P i
  let s3 := putc c s2
  { s3 with reg := upd s3.reg R0 (toU16 c) }

/-- `halt` (trap `HALT`) -/
def halt (s : Machine) : Machine :=
  let s1 := printf "Execution completed" s
  { s1 with state := STOP }

/-- The loop of `putsp`: per non-zero word the low byte is written, then the
high byte when the `char` holding it is non-zero. -/
def putspLoop : Nat → Nat → Machine → Except Stuck Machine
  | 0, _, _ => .error .outOfFuel
  | fuel + 1, c, s =>
    if c < UINT16_MAX then
      if s.memory c ≠ 0 then
        let s1 := putc (s.memory c &&& 255 : Nat) s
        let aus : Int := ((s.memory c >>> 8 : Nat) : Int)
        let s2 := if aus % 256 ≠ 0 then putc aus s1 else s1
        putspLoop fuel (c + 1) s2
      else .ok s
    else .error .outOfBounds

/-- `putsp` (trap `PUTSP`) -/
def putsp (s : Machine) : Except Stuck Machine :=
  putspLoop 65536 (s.reg R0) s

/-- `trap`: a vector without a `case` falls through the `switch`. -/
def trap (P : Platform) (instr : Nat) (s : Machine) : Except Stuck Machine :=
  let trapIndex := instr &&& 255
  if trapIndex = GETC then .ok (get s)
  else if trapIndex = OUT then .ok (out s)
  else if trapIndex = PUTS then put s
  else if trapIndex = IN then .ok (inTrap P s)
  else if trapIndex = PUTSP then putsp s
  else if trapIndex = HALT then .ok (halt s)
  else .ok s

/-! ## Fetch, decode, execute -/

/-- The `switch (opcode)` of `main`. -/
def dispatch (P : Platform) (opcode instr : Nat) (s : Machine) : Except Stuck Machine :=
  if opcode = ADD then .ok (add P instr s)
  else if opcode = AND then .ok (and P instr s)
  else if opcode = NOT then .ok (not instr s)
  else if opcode = BR then .ok (br P instr s)
  else if opcode = JMP then .ok (jmp instr s)
  else if opcode = JSR then .ok (jsr P instr s)
  else if opcode = LD then ld P instr s
  else if opcode = LDI then ldi P instr s
  else if opcode = LDR then ldr P instr s
  else if opcode = LEA then .ok (lea P instr s)
  else if opcode = ST then st P instr s
  else if opcode = STI then sti P instr s
  else if opcode = STR then str P instr s
  else if opcode = TRAP then trap P instr s
  else if opcode = RES then .ok s
  else if opcode = RTI then .ok s
  else
    let s1 := printf "Invalid opcode. Execution aborted." s
    .ok { s1 with state := STOP, res := OPNOTDEFINED }

/-- One iteration of the body of `while (state == RUN)` in `main`. -/
def step (P : Platform) (s : Machine) : Except Stuck Machine := do
  let (instr, s1) ← memRead (s.reg PC) s
  let s2 := { s1 with reg := upd s1.reg PC ((s1.reg PC + 1) % 65536) }
  let opcode := instr >>> 12
  dispatch P opcode instr s2

/-- The loop `while (state == RUN)`, unrolled at most `fuel` times. -/
def loop (P : Platform) : Nat → Machine → Except Stuck Machine
  | 0, s => if s.state = RUN then .error .outOfFuel else .ok s
  | fuel + 1, s =>
    if s.state = RUN then
      match step P s with
      | .ok s1 => loop P fuel s1
      | .error e => .error e
    else .ok s

/-! ## Image loading -/

/-- `convertEndianess` -/
def convertEndianess (n : Nat) : Nat :=
  ((n <<< 8) ||| (n >>> 8)) % 65536

/-- `fread(ptr, sizeof(u_int16_t), count, fp)`: the complete two-byte items
read, at most `count` of them, each as the host stores it (the host is
little-endian: first byte low).  A trailing single byte is no item. -/
def fread : Nat → List Nat → List Nat
  | 0, _ => []
  | _ + 1, [] => []
  | _ + 1, [_] => []
  | count + 1, b0 :: b1 :: rest => (b0 % 256 + 256 * (b1 % 256)) :: fread count rest

/-- The items `fread` delivers are placed in consecutive elements of `memory`
from index `a` on. -/
def store : Nat → List Nat → (Nat → Nat) → Except Stuck (Nat → Nat)
  | _, [], m => .ok m
  | a, x :: xs, m =>
    if a < UINT16_MAX then store (a + 1) xs (upd m a x) else .error .outOfBounds

/-- The loop `while (fileSize > 0)` of `readFile`. -/
def convertLoop : Nat → Nat → (Nat → Nat) → Except Stuck (Nat → Nat)
  | 0, _, m => .ok m
  | fileSize + 1, a, m =>
    if a < UINT16_MAX then
      convertLoop fileSize (a + 1) (upd m a (convertEndianess (m a)))
    else .error .outOfBounds

/-- `readFile`: `fp` is the content of the stream, a list of bytes. -/
def readFile (fp : List Nat) (s : Machine) : Except Stuck Machine :=
  match fp with
  | b0 :: b1 :: rest => do
    let startAddress := convertEndianess (b0 % 256 + 256 * (b1 % 256))
    let maxFileSize := UINT16_MAX - startAddress
    let items := fread maxFileSize rest
    let m1 ← store startAddress items s.memory
    let fileSize := items.length
    let m2 ← convertLoop fileSize startAddress m1
    pure { s with memory := m2 }
  | _ => .error .uninitialised

/-- `readSourceFile`: `none` stands for a path that `fopen` cannot open. -/
def readSourceFile (source : Option (List Nat)) (s : Machine) : Except Stuck (Int × Machine) :=
  match source with
  | some fp => do
    let s1 ← readFile fp s
    pure (0, s1)
  | none => .ok (-1, s)

/-- The loop over `argv[1 ..]` of `main`: each argument is the name of a file
together with what opening it gives. -/
def loadAll : List (String × Option (List Nat)) → Machine → Except Stuck Machine
  | [], s => .ok s
  | (name, source) :: more, s =>
    if s.res ≠ LOADFAIL then
      match readSourceFile source s with
      | .ok (r, s1) =>
        if r = -1 then
          let s2 := { s1 with res := LOADFAIL, state := STOP }
          let s3 := printf ("Failed to load source file: " ++ name ++ "\n") s2
          loadAll more s3
        else loadAll more s1
      | .error e => .error e
    else .ok s

/-- The state of the globals when `main` is entered: objects with static
storage are zero, except `state`, which is initialised to `RUN`. -/
def initial (stdin : List Nat) : Machine :=
  { memory := fun _ => 0, reg := fun _ => 0, state := RUN, res := COMPLETED,
    stdin := stdin, stdout := [], stdinEof := false }

/-- `main`, with `args` the arguments after the program name; the result is
the final state, whose field `res` is the value `main` returns. -/
def main (P : Platform) (fuel : Nat) (args : List (String × Option (List Nat)))
    (s : Machine) : Except Stuck Machine :=
  let s0 := { s with res := COMPLETED, reg := upd s.reg PC PC_START }
  if args.length + 1 < 2 then
    let s1 := printf "lc3 [source file 1] ... \n" s0
    .ok { s1 with res := WRONGSYNTAX }
  else
    match loadAll args s0 with
    | .ok s1 => loop P fuel s1
    | .error e => .error e

/-- `handleInterrupt`: the terminal settings are restored and the process ends
with `exit(-2)`; the result is the status passed to `exit`. -/
def handleInterrupt (_signal : Int) : Int := -2

/-- The state in which `main` starts loading the images: the globals as
initialised, `res` and the program counter assigned. -/
def entry (stdin : List Nat) : Machine :=
  { initial stdin with res := COMPLETED, reg := upd (initial stdin).reg PC PC_START }

/-- The state after `n` iterations of the loop `while (state == RUN)`, or the
state in which the loop has ended if that takes fewer: the states the loop
passes through are `runFor P n s` for `n = 0, 1, 2, ...`. -/
def runFor (P : Platform) : Nat → Machine → Except Stuck Machine
  | 0, s => .ok s
  | n + 1, s =>
    if s.state = RUN then
      match step P s with
      | .ok s1 => runFor P n s1
      | .error e => .error e
    else .ok s

/-! ## Vocabulary of the specification

The definitions below restate, in the words of the specification, what the
theorems compare the program with. -/

/-- The element `memory[a]`, when `a` is an index of the array. -/
def Machine.word (s : Machine) (a : Nat) : Option Nat :=
  if a < UINT16_MAX then some (s.memory a) else none

/-- The word `r` is the sign extension of the `b`-bit field `v`: sixteen bits
wide, the low `b` bits those of `v`, the bits `b .. 15` all equal to bit `b - 1`
of `v`. -/
def SignExtended (v b r : Nat) : Prop :=
  r < 65536 ∧ (∀ i, i < b → r.testBit i = v.testBit i) ∧
    (∀ i, b ≤ i → i < 16 → r.testBit i = v.testBit (b - 1))

/-- The flag that goes with a written value: `ZRO` for zero, `NEG` when bit 15
is set, `POS` otherwise. -/
def flagFor (v : Nat) : Nat :=
  if v = 0 then ZRO else if v.testBit 15 then NEG else POS

/-- The flags register holds no flag at all or exactly one of `POS`, `ZRO`,
`NEG`. -/
def FlagsOK (s : Machine) : Prop :=
  s.reg COND = 0 ∨ s.reg COND = POS ∨ s.reg COND = ZRO ∨ s.reg COND = NEG

/-- The two bytes of the big-endian encoding of a 16-bit word. -/
def bigEndian (w : Nat) : List Nat := [w / 256 % 256, w % 256]

/-- The big-endian encodings of a list of words, one after the other. -/
def encodeWords : List Nat → List Nat
  | [] => []
  | w :: ws => w / 256 % 256 :: w % 256 :: encodeWords ws

/-- A program image: the load address, then the words, all big-endian. -/
def image (o : Nat) (ws : List Nat) : List Nat := bigEndian o ++ encodeWords ws

/-- The effective address of an `LD` instruction `w` fetched in state `s`: the
incremented program counter plus the value that `ld` receives from
`signExtension` for the 9-bit offset field, modulo `2^16`. -/
def ldAddress (P : Platform) (s : Machine) (w : Nat) : Nat :=
  (s.reg PC + 1 + signExtension P (w &&& 511) 9) % 65536

/-! ## Concrete platforms and states used in the examples -/

/-- A platform on which the call of `signExtension` yields the value its body
has computed in `n`. -/
def platformLocal : Platform := ⟨signExtensionLocal, true⟩

/-- A platform on which the call of `signExtension` yields `0`. -/
def platformZero : Platform := ⟨fun _ _ => 0, true⟩

/-- The running machine whose memory and registers hold the listed values and
zero everywhere else, with nothing written yet and the input open and idle. -/
def machineWith (mem regs : List (Nat × Nat)) : Machine :=
  { memory := fun a => (mem.lookup a).getD 0, reg := fun r => (regs.lookup r).getD 0,
    state := RUN, res := COMPLETED, stdin := [], stdout := [], stdinEof := false }

/-- `JSRR R0` at `0x3000`, flags `ZRO`. -/
def cexJsr : Machine := machineWith [(0x3000, 0x4000)] [(PC, 0x3000), (COND, ZRO)]

/-- `TRAP x20` (`GETC`) at `0x3000`, flags `ZRO`, the byte `0x41` waiting on
the input. -/
def cexGetc : Machine :=
  { machineWith [(0x3000, 0xF020)] [(PC, 0x3000), (COND, ZRO)] with stdin := [0x41] }

/-- `ADD R1, R1, #1` at `0x3000`. -/
def exAdd : Machine := machineWith [(0x3000, 0x1261)] [(PC, 0x3000)]

/-- The state `add` produces from `exAdd` once the instruction is fetched. -/
def exAddAfter : Machine :=
  add platformLocal 0x1261 { exAdd with reg := upd exAdd.reg PC 0x3001 }

/-- `LD R1, #1` stored in the keyboard status word, with the program counter
on it. -/
def cexLd : Machine := machineWith [(0xFE00, 0x2201), (0xFE02, 0x1234)] [(PC, 0xFE00)]

/-- Registers at the entry of `jsr` for `JSRR R2` fetched at `0x3000`. -/
def exJsrr : Machine := machineWith [] [(R1, 0x1111), (R2, 0x2222), (PC, 0x3001)]

/-- Registers at the entry of `add` for an instruction fetched at `0x3000`,
with `R1 = 0`. -/
def exAddImm : Machine := machineWith [] [(PC, 0x3001)]

/-- A word with opcode bits `1101` at `0x3000`. -/
def cexRes : Machine := machineWith [(0x3000, 0xD000)] [(PC, 0x3000), (COND, ZRO)]

/-- A word with opcode bits `1000` at `0x3000`. -/
def exRti : Machine := machineWith [(0x3000, 0x8000)] [(PC, 0x3000)]

/-- Registers at the entry of `br` for an instruction fetched at `0x3000`,
flags `ZRO`. -/
def exBr : Machine := machineWith [] [(PC, 0x3001), (COND, ZRO)]

/-- A machine with the byte `0x80` waiting on the input. -/
def exIn : Machine := { machineWith [] [] with stdin := [0x80] }

/-- Registers at the entry of `st` for an instruction fetched at `0x3000`,
with `R1 = 0xBEEF`. -/
def exSt : Machine := machineWith [] [(PC, 0x3001), (R1, 0xBEEF)]

/-- `R0` designates the last element of `memory`, which holds `'A'`: no zero
word follows in the array. -/
def exPuts : Machine := machineWith [(0xFFFE, 0x41)] [(R0, 0xFFFE)]

/-- The string `"HI"` at `0x3003`, designated by `R0`. -/
def exPutsHi : Machine := machineWith [(0x3003, 0x48), (0x3004, 0x49)] [(R0, 0x3003)]

/-- The words of the image of Scenario B: `LEA R0, #2`, `TRAP x22`, `TRAP x25`,
`'H'`, `'I'`, `0`. -/
def scenarioB : List Nat := [0xE002, 0xF022, 0xF025, 0x0048, 0x0049, 0x0000]

/-- `LD R1, #1` at `0x3000`, the word `0x1111` at `0x3001` and the word `0x2222`
at `0x3002`. -/
def exLdNext : Machine :=
  machineWith [(0x3000, 0x2201), (0x3001, 0x1111), (0x3002, 0x2222)] [(PC, 0x3000)]

/-- The program counter is `0xFFFF`; the word the address space would hold
there has opcode bits `1000`. -/
def exTop : Machine := machineWith [(0xFFFF, 0x8000)] [(PC, 0xFFFF)]

/-- No byte is pending and the input has reached its end of file; the keyboard
data word holds `0x0041`. -/
def exEof : Machine := { machineWith [(0xFE02, 0x41)] [] with stdinEof := true }

/-- No byte is pending and the input is open; the keyboard status word holds
`0x8000` and the keyboard data word `0x0041`. -/
def exIdle : Machine := machineWith [(0xFE00, 0x8000), (0xFE02, 0x41)] []

/-! ## Basic facts -/

theorem upd_same (a : Nat → Nat) (i v : Nat) : upd a i v i = v := by simp [upd]

theorem upd_other (a : Nat → Nat) (i v j : Nat) (h : j ≠ i) : upd a i v j = a j := by
  simp [upd, h]

theorem upd_lt (a : Nat → Nat) (i v : Nat) (ha : ∀ j, a j < 65536) (hv : v < 65536) :
    ∀ j, upd a i v j < 65536 := by
  intro j
  unfold upd
  split
  · exact hv
  · exact ha j

theorem toU16_lt (i : Int) : toU16 i < 65536 := by
  unfold toU16
  have h1 : 0 ≤ i % 65536 := Int.emod_nonneg _ (by norm_num)
  have h2 : i % 65536 < 65536 := Int.emod_lt_of_pos _ (by norm_num)
  omega

theorem testBit_of_and_one (v k : Nat) : ((v >>> k) &&& 1 ≠ 0) ↔ v.testBit k = true := by
  unfold Nat.testBit
  rw [Nat.land_comm]
  simp

theorem and7_le (x : Nat) : x &&& 7 ≤ 7 := Nat.and_le_right

theorem and7_ne_COND (x : Nat) : x &&& 7 ≠ COND := by
  have := and7_le x
  simp only [COND]
  omega

theorem signExtension_lt (P : Platform) (n b : Nat) : signExtension P n b < 65536 := by
  unfold signExtension
  exact Nat.mod_lt _ (by norm_num)

theorem lookup_getD_lt (l : List (Nat × Nat)) (h : ∀ p ∈ l, p.2 < 65536) (a : Nat) :
    (l.lookup a).getD 0 < 65536 := by
  induction l with
  | nil => simp
  | cons p l ih =>
    obtain ⟨k, v⟩ := p
    simp only [List.lookup]
    split
    · simpa using h (k, v) (List.mem_cons_self _ _)
    · exact ih (fun q hq => h q (List.mem_cons_of_mem _ hq))

theorem machineWith_WF (mem regs : List (Nat × Nat)) (hm : ∀ p ∈ mem, p.2 < 65536)
    (hr : ∀ p ∈ regs, p.2 < 65536) : (machineWith mem regs).WF :=
  ⟨lookup_getD_lt mem hm, lookup_getD_lt regs hr⟩

theorem WF_setPC (s : Machine) (v : Nat) (hv : v < 65536) (h : s.WF) :
    Machine.WF { s with reg := upd s.reg PC v } :=
  ⟨h.1, upd_lt _ _ _ h.2 hv⟩

theorem getchar_snd (s : Machine) :
    (getchar s).2
      = { s with stdin := s.stdin.tail, stdinEof := s.stdinEof || s.stdin.isEmpty } := by
  unfold getchar
  split
  · rename_i h; cases s; simp_all
  · rename_i h; cases s; simp_all

/-! ## Memory access -/

/-- What a successful `memRead` leaves behind: registers, run state, result
code and output are untouched, the value is the word now stored at the
address, and 16-bit contents stay 16-bit. -/
theorem memRead_ok (a : Nat) (s s1 : Machine) (v : Nat) (h : memRead a s = .ok (v, s1)) :
    s1.reg = s.reg ∧ s1.state = s.state ∧ s1.res = s.res ∧ s1.stdout = s.stdout ∧
      v = s1.memory (a % 65536) ∧ (s.WF → s1.WF) := by
  unfold memRead at h
  simp only at h
  split at h
  · injection h with h
    injection h with hv hs
    subst hs hv
    split
    · split
      · refine ⟨?_, ?_, ?_, ?_, rfl, ?_⟩
        · unfold getchar; split <;> rfl
        · unfold getchar; split <;> rfl
        · unfold getchar; split <;> rfl
        · unfold getchar; split <;> rfl
        · intro hwf
          refine ⟨?_, ?_⟩
          · apply upd_lt _ _ _ _ (toU16_lt _)
            have : ∀ j, upd s.memory KBSR ((1 <<< 15) % 65536) j < 65536 :=
              upd_lt _ _ _ hwf.1 (by decide)
            unfold getchar; split <;> exact this
          · unfold getchar; split <;> exact hwf.2
      · exact ⟨rfl, rfl, rfl, rfl, rfl, fun hwf => ⟨upd_lt _ _ _ hwf.1 (by decide), hwf.2⟩⟩
    · exact ⟨rfl, rfl, rfl, rfl, rfl, fun hwf => hwf⟩
  · cases h

/-- A read of an address of the array other than `KBSR` returns the stored
word and changes nothing. -/
theorem memRead_plain (a : Nat) (s : Machine) (h1 : a % 65536 ≠ KBSR)
    (h2 : a % 65536 < UINT16_MAX) : memRead a s = .ok (s.memory (a % 65536), s) := by
  unfold memRead
  simp only [h1, if_false, h2, if_true]

/-- The fetch of `main` when the program counter designates a word of the
array other than `KBSR`. -/
theorem fetch_plain (s : Machine) (w : Nat) (hw : s.word (s.reg PC) = some w)
    (hpc : s.reg PC ≠ KBSR) :
    memRead (s.reg PC) s = .ok (w, s) ∧ s.reg PC < UINT16_MAX ∧ s.memory (s.reg PC) = w := by
  unfold Machine.word at hw
  split at hw
  · rename_i hlt
    injection hw with hw
    have hmod : s.reg PC % 65536 = s.reg PC :=
      Nat.mod_eq_of_lt (by simp only [UINT16_MAX] at hlt; omega)
    refine ⟨?_, hlt, hw⟩
    unfold memRead
    simp only [hmod, hpc, if_false, hlt, if_true, hw]
  · cases hw

/-- Below the top address `memWrite` stores the value, changes no other word
and no register, and a following `memRead` of an address other than `KBSR`
returns the value. -/
theorem memWrite_memRead (a v : Nat) (s : Machine) (ha : a < 0xFFFF) (hv : v < 65536) :
    ∃ s1, memWrite a v s = .ok s1 ∧ s1.memory a = v ∧ (∀ b, b ≠ a → s1.memory b = s.memory b) ∧
      s1.reg = s.reg ∧ (a ≠ 0xFE00 → memRead a s1 = .ok (v, s1)) := by
  have hmod : a % 65536 = a := Nat.mod_eq_of_lt (by omega)
  have hvm : v % 65536 = v := Nat.mod_eq_of_lt hv
  refine ⟨{ s with memory := upd s.memory a v }, ?_, by simp [upd], fun b hb => by simp [upd, hb],
    rfl, ?_⟩
  · unfold memWrite
    simp [hmod, hvm, ha]
  · intro hk
    rw [memRead_plain _ _ (by rw [hmod]; exact hk) (by rw [hmod]; exact ha)]
    simp [hmod, upd]

/-! ## Flags -/

theorem flagFor_cases (v : Nat) : flagFor v = POS ∨ flagFor v = ZRO ∨ flagFor v = NEG := by
  unfold flagFor
  split
  · exact Or.inr (Or.inl rfl)
  · split
    · exact Or.inr (Or.inr rfl)
    · exact Or.inl rfl

theorem shiftRight15_eq_one (v : Nat) (hv : v < 65536) : v >>> 15 = 1 ↔ v.testBit 15 = true := by
  rw [Nat.testBit_to_div_mod, Nat.shiftRight_eq_div_pow]
  simp only [decide_eq_true_eq]
  omega

theorem updateFlags_reg (dr r : Nat) (s : Machine) (hr : r ≠ COND) :
    (updateFlags dr s).reg r = s.reg r := by
  unfold updateFlags
  split
  · simp [upd, hr]
  · split <;> simp [upd, hr]

theorem updateFlags_frame (dr : Nat) (s : Machine) :
    (updateFlags dr s).memory = s.memory ∧ (updateFlags dr s).state = s.state ∧
      (updateFlags dr s).res = s.res ∧ (updateFlags dr s).stdin = s.stdin ∧
      (updateFlags dr s).stdout = s.stdout := by
  unfold updateFlags
  split
  · exact ⟨rfl, rfl, rfl, rfl, rfl⟩
  · split <;> exact ⟨rfl, rfl, rfl, rfl, rfl⟩

/-- Writing a 16-bit value to a general-purpose register and calling
`updateFlags` on it leaves the flag of the value in `COND`. -/
theorem updateFlags_after_write (s : Machine) (dr v : Nat) (hdr : dr ≠ COND) (hv : v < 65536) :
    (updateFlags dr { s with reg := upd s.reg dr v }).reg COND
      = flagFor ((updateFlags dr { s with reg := upd s.reg dr v }).reg dr) := by
  have hb := shiftRight15_eq_one v hv
  unfold updateFlags flagFor
  simp only [upd_same]
  by_cases h0 : v = 0
  · simp [h0, upd, hdr]
  · by_cases h15 : v >>> 15 = 1
    · have := hb.1 h15
      simp [h0, h15, this, upd, hdr]
    · have : v.testBit 15 = false := by
        by_contra hc
        exact h15 (hb.2 (by simpa using hc))
      simp [h0, h15, this, upd, hdr]

/-! ## Sign extension (C1) -/

/-- The word `signExtension` has computed in `n` when its body ends, and then
drops for want of a `return`: for a bit count `b` in `1 .. 16` and a field value
`v` that fits in `b` bits it is the sign extension of `v`. -/
theorem signExtensionLocal_spec (v b : Nat) (hb1 : 1 ≤ b) (hb16 : b ≤ 16) (hv : v < 2 ^ b) :
    SignExtended v b (signExtensionLocal v b) := by
  unfold signExtensionLocal
  split
  · rename_i h
    have hs : v.testBit (b - 1) = true := (testBit_of_and_one v (b - 1)).1 h
    have e1 : (65536 : Nat) = 2 ^ 16 := by norm_num
    have e2 : (65535 : Nat) = 2 ^ 16 - 1 := by norm_num
    refine ⟨Nat.mod_lt _ (by norm_num), ?_, ?_⟩
    · intro i hi
      rw [e1, e2, Nat.testBit_mod_two_pow, Nat.testBit_lor, Nat.testBit_shiftLeft]
      have : ¬ (i ≥ b) := by omega
      have h16 : i < 16 := by omega
      simp [this, h16]
    · intro i hbi hi
      rw [e1, e2, Nat.testBit_mod_two_pow, Nat.testBit_lor, Nat.testBit_shiftLeft,
        Nat.testBit_two_pow_sub_one, hs]
      have : i - b < 16 := by omega
      simp [hbi, hi, this]
  · rename_i h
    have hs : v.testBit (b - 1) = false := by
      by_contra hc
      exact h ((testBit_of_and_one v (b - 1)).2 (by simpa using hc))
    refine ⟨lt_of_lt_of_le hv ?_, fun _ _ => rfl, ?_⟩
    · calc 2 ^ b ≤ 2 ^ 16 := Nat.pow_le_pow_right (by norm_num) hb16
        _ = 65536 := by norm_num
    · intro i hbi _
      rw [hs]
      exact Nat.testBit_lt_two_pow (lt_of_lt_of_le hv (Nat.pow_le_pow_right (by norm_num) hbi))

/-- C1, the code at `signExtension(1, 5)`: the sign bit of the field is clear
and the body leaves `1` in `n`, but no `return` hands it back; where the call
yields `0` the result is `0`, whose bit 0 is not bit 0 of the input. -/
theorem signExtension_loses_value :
    signExtensionLocal 1 5 = 1 ∧ signExtension platformZero 1 5 = 0 ∧
    ¬ SignExtended 1 5 (signExtension platformZero 1 5) := by
  refine ⟨by decide, by decide, ?_⟩
  intro h
  have h0 := h.2.1 0 (by decide)
  revert h0
  decide

/-! ## Image loading (C2) -/

theorem convertEndianess_hostOrder (w : Nat) (h : w < 65536) :
    convertEndianess (w / 256 % 256 % 256 + 256 * (w % 256 % 256)) = w := by
  unfold convertEndianess
  have h1 : (w / 256 % 256 % 256 + 256 * (w % 256 % 256)) >>> 8 = w % 256 := by
    rw [Nat.shiftRight_eq_div_pow]; norm_num; omega
  have h2 : (w / 256 % 256 % 256 + 256 * (w % 256 % 256)) <<< 8
      = 2 ^ 8 * (w / 256 + 256 * (w % 256)) := by
    rw [Nat.shiftLeft_eq]; norm_num; omega
  have h3 : w % 256 < 2 ^ 8 := by norm_num; omega
  rw [h1, h2, ← Nat.mul_add_lt_is_or h3]
  norm_num
  omega

theorem fread_encodeWords (ws : List Nat) : ∀ count, ws.length ≤ count →
    fread count (encodeWords ws)
      = ws.map (fun w => w / 256 % 256 % 256 + 256 * (w % 256 % 256)) := by
  induction ws with
  | nil => intro count _; cases count <;> simp [encodeWords, fread]
  | cons w ws ih =>
    intro count hc
    cases count with
    | zero => simp at hc
    | succ k =>
      simp only [encodeWords, fread, List.map_cons]
      rw [ih k (by simpa using hc)]

theorem store_ok (xs : List Nat) : ∀ (a : Nat) (m : Nat → Nat), a + xs.length ≤ UINT16_MAX →
    store a xs m
      = .ok (fun j => if a ≤ j ∧ j < a + xs.length then xs.getD (j - a) 0 else m j) := by
  induction xs with
  | nil =>
    intro a m _
    simp only [store, List.length_nil, Nat.add_zero]
    congr 1
    funext j
    have : ¬ (a ≤ j ∧ j < a) := by omega
    rw [if_neg this]
  | cons x xs ih =>
    intro a m h
    simp only [List.length_cons] at h
    have ha : a < UINT16_MAX := by omega
    simp only [store, ha, if_true]
    rw [ih (a + 1) _ (by omega)]
    congr 1
    funext j
    by_cases h1 : j = a
    · subst h1
      simp [upd]
    · by_cases h2 : a + 1 ≤ j ∧ j < a + 1 + xs.length
      · have h3 : a ≤ j ∧ j < a + (x :: xs).length := by simp only [List.length_cons]; omega
        have h4 : j - a = (j - (a + 1)) + 1 := by omega
        rw [if_pos h2, if_pos h3, h4, List.getD_cons_succ]
      · have h3 : ¬ (a ≤ j ∧ j < a + (x :: xs).length) := by
          simp only [List.length_cons]; omega
        rw [if_neg h2, if_neg h3, upd_other _ _ _ _ h1]

theorem convertLoop_ok : ∀ (k a : Nat) (m : Nat → Nat), a + k ≤ UINT16_MAX →
    convertLoop k a m
      = .ok (fun j => if a ≤ j ∧ j < a + k then convertEndianess (m j) else m j) := by
  intro k
  induction k with
  | zero =>
    intro a m _
    simp only [convertLoop, Nat.add_zero]
    congr 1
    funext j
    have : ¬ (a ≤ j ∧ j < a) := by omega
    rw [if_neg this]
  | succ k ih =>
    intro a m h
    have ha : a < UINT16_MAX := by omega
    simp only [convertLoop, ha, if_true]
    rw [ih (a + 1) _ (by omega)]
    congr 1
    funext j
    by_cases h1 : j = a
    · subst h1
      simp [upd]
    · by_cases h2 : a + 1 ≤ j ∧ j < a + 1 + k
      · have h3 : a ≤ j ∧ j < a + (k + 1) := by omega
        rw [if_pos h2, if_pos h3, upd_other _ _ _ _ h1]
      · have h3 : ¬ (a ≤ j ∧ j < a + (k + 1)) := by omega
        rw [if_neg h2, if_neg h3, upd_other _ _ _ _ h1]

/-- The result of `readFile` on an image that fits below the top of memory:
only `memory` changes, the loaded range holds the words, the rest is as
before. -/
theorem readFile_image_eq (o : Nat) (ws : List Nat) (s : Machine)
    (hfit : o + ws.length ≤ 0xFFFF) (hws : ∀ w ∈ ws, w < 65536) :
    ∃ m, readFile (image o ws) s = .ok { s with memory := m } ∧
      (∀ i, (h : i < ws.length) → m (o + i) = ws[i]) ∧
      (∀ a, a < o ∨ o + ws.length ≤ a → m a = s.memory a) := by
  have ho : o < 65536 := by omega
  have hstart := convertEndianess_hostOrder o ho
  simp only [image, bigEndian, List.cons_append, List.nil_append, readFile, hstart]
  rw [fread_encodeWords ws _ (by simp only [UINT16_MAX]; omega)]
  rw [store_ok _ _ _ (by simp only [List.length_map, UINT16_MAX]; omega)]
  simp only [List.length_map, bind, Except.bind, pure, Except.pure]
  rw [convertLoop_ok _ _ _ (by simp only [UINT16_MAX]; omega)]
  refine ⟨_, rfl, ?_, ?_⟩
  · intro i hi
    have h1 : o ≤ o + i ∧ o + i < o + ws.length := by omega
    simp only [if_pos h1, Nat.add_sub_cancel_left]
    rw [List.getD_eq_getElem _ _ (by simpa using hi)]
    simp only [List.getElem_map]
    exact convertEndianess_hostOrder _ (hws _ (List.getElem_mem _))
  · intro a ha
    have h1 : ¬ (o ≤ a ∧ a < o + ws.length) := by omega
    simp only [if_neg h1]

/-- C2: for a load address `o` and 16-bit words `ws` with
`o + ws.length ≤ 0xFFFF`, `readFile` on the image made of the big-endian
encoding of `o` followed by the big-endian encodings of the words succeeds,
leaves `memory[o + i] = ws[i]` for every `i < ws.length`, and leaves every
memory word outside `o .. o + ws.length - 1` (and the registers and the run
state) unchanged. -/
theorem readFile_image (o : Nat) (ws : List Nat) (s : Machine)
    (hfit : o + ws.length ≤ 0xFFFF) (hws : ∀ w ∈ ws, w < 65536) :
    ∃ s1, readFile (image o ws) s = .ok s1 ∧
      (∀ i, (h : i < ws.length) → s1.memory (o + i) = ws[i]) ∧
      (∀ a, a < o ∨ o + ws.length ≤ a → s1.memory a = s.memory a) ∧
      s1.reg = s.reg ∧ s1.state = s.state := by
  obtain ⟨m, hr, hin, hout⟩ := readFile_image_eq o ws s hfit hws
  exact ⟨_, hr, hin, hout, rfl, rfl⟩

/-- C2 at the image with load address `0x3000` and the words `0x5020`,
`0xF025`, loaded into the initial machine. -/
theorem readFile_image_witness :
    (0x3000 + [0x5020, 0xF025].length ≤ 0xFFFF ∧ ∀ w ∈ [0x5020, 0xF025], w < 65536) ∧
    ∃ s1, readFile (image 0x3000 [0x5020, 0xF025]) (initial []) = .ok s1 ∧
      (∀ i, (h : i < [0x5020, 0xF025].length) → s1.memory (0x3000 + i) = [0x5020, 0xF025][i]) ∧
      (∀ a, a < 0x3000 ∨ 0x3000 + [0x5020, 0xF025].length ≤ a →
        s1.memory a = (initial []).memory a) ∧
      s1.reg = (initial []).reg ∧ s1.state = (initial []).state :=
  ⟨by decide, readFile_image 0x3000 [0x5020, 0xF025] (initial []) (by decide) (by decide)⟩

/-! ## Flags after a register write (C3) -/

/-- C3, counterexample: `JSRR R0` fetched at `0x3000` with flags `ZRO` writes
the non-zero, bit-15-clear value `0x3001` to `R7`, and the flags register still
holds `ZRO` afterwards, where the claim demands `POS`; likewise `TRAP x20`
reading the byte `0x41` writes `R0 = 0x0041` and leaves `ZRO`. -/
theorem step_jsr_flags_stale :
    (∃ s1, step platformLocal cexJsr = .ok s1 ∧ cexJsr.reg R7 = 0 ∧ s1.reg R7 = 0x3001 ∧
      s1.reg COND = ZRO ∧ flagFor (s1.reg R7) = POS) ∧
    (∃ s1, step platformLocal cexGetc = .ok s1 ∧ cexGetc.reg R0 = 0 ∧ s1.reg R0 = 0x41 ∧
      s1.reg COND = ZRO ∧ flagFor (s1.reg R0) = POS) :=
  ⟨⟨_, rfl, by decide, by decide, by decide, by decide⟩,
    ⟨_, rfl, by decide, by decide, by decide, by decide⟩⟩

/-- C3, amended: in a state with 16-bit contents, when the fetched instruction
is `ADD`, `AND`, `NOT`, `LD`, `LDI`, `LDR` or `LEA` and the step completes,
the flags register afterwards holds exactly one of `POS`, `ZRO`, `NEG`, namely the
flag of the value in the destination register (bits 11..9); when it is `JSR` or
a `GETC` or `IN` trap, the flags register is left as it was. -/
theorem step_flags (P : Platform) (s s1 s' : Machine) (instr : Nat)
    (hwf : s.WF) (hf : memRead (s.reg PC) s = .ok (instr, s1)) (hs : step P s = .ok s') :
    (instr >>> 12 ∈ [ADD, AND, NOT, LD, LDI, LDR, LEA] →
      s'.reg COND = flagFor (s'.reg ((instr >>> 9) &&& 7)) ∧
        (s'.reg COND = POS ∨ s'.reg COND = ZRO ∨ s'.reg COND = NEG)) ∧
    (instr >>> 12 = JSR ∨
        (instr >>> 12 = TRAP ∧ (instr &&& 255 = GETC ∨ instr &&& 255 = IN)) →
      s'.reg COND = s.reg COND) := by
  obtain ⟨hreg, -, -, -, -, hwf1⟩ := memRead_ok _ _ _ _ hf
  have hwf2 := WF_setPC s1 ((s1.reg PC + 1) % 65536) (Nat.mod_lt _ (by norm_num)) (hwf1 hwf)
  simp only [step, hf, bind, Except.bind] at hs
  generalize hs2 : ({ s1 with reg := upd s1.reg PC ((s1.reg PC + 1) % 65536) } : Machine) = s2
    at hs hwf2
  have hdr := and7_ne_COND (instr >>> 9)
  have hcond2 : s2.reg COND = s.reg COND := by
    rw [← hs2, ← hreg]; simp [upd]
  constructor
  · intro hop
    suffices h : s'.reg COND = flagFor (s'.reg ((instr >>> 9) &&& 7)) from
      ⟨h, h ▸ flagFor_cases _⟩
    simp only [List.mem_cons, List.mem_singleton, List.not_mem_nil, or_false] at hop
    rcases hop with h | h | h | h | h | h | h
    · simp only [dispatch, h] at hs
      injection hs with hs
      subst hs
      unfold add
      simp only
      split
      · exact updateFlags_after_write _ _ _ hdr (Nat.mod_lt _ (by norm_num))
      · exact updateFlags_after_write _ _ _ hdr (Nat.mod_lt _ (by norm_num))
    · simp [dispatch, h] at hs
      subst hs
      unfold and
      simp only
      split
      · exact updateFlags_after_write _ _ _ hdr
          (lt_of_le_of_lt Nat.and_le_right (signExtension_lt _ _ _))
      · exact updateFlags_after_write _ _ _ hdr
          (lt_of_le_of_lt Nat.and_le_right (hwf2.2 _))
    · simp [dispatch, h] at hs
      subst hs
      unfold not
      exact updateFlags_after_write _ _ _ hdr (toU16_lt _)
    · simp [dispatch, h, ld, bind, Except.bind] at hs
      split at hs
      · cases hs
      · rename_i r hm
        obtain ⟨v, s3⟩ := r
        obtain ⟨-, -, -, -, hv, hwf3⟩ := memRead_ok _ _ _ _ hm
        simp [pure, Except.pure] at hs
        subst hs
        exact updateFlags_after_write _ _ _ hdr (hv ▸ (hwf3 hwf2).1 _)
    · simp [dispatch, h, ldi, bind, Except.bind] at hs
      split at hs
      · cases hs
      · rename_i r hm
        obtain ⟨ptr, s3⟩ := r
        obtain ⟨-, -, -, -, -, hwf3⟩ := memRead_ok _ _ _ _ hm
        simp only at hs
        split at hs
        · cases hs
        · rename_i r2 hm2
          obtain ⟨v, s4⟩ := r2
          obtain ⟨-, -, -, -, hv, hwf4⟩ := memRead_ok _ _ _ _ hm2
          simp [pure, Except.pure] at hs
          subst hs
          exact updateFlags_after_write _ _ _ hdr (hv ▸ (hwf4 (hwf3 hwf2)).1 _)
    · simp [dispatch, h, ldr, bind, Except.bind] at hs
      split at hs
      · cases hs
      · rename_i r hm
        obtain ⟨v, s3⟩ := r
        obtain ⟨-, -, -, -, hv, hwf3⟩ := memRead_ok _ _ _ _ hm
        simp [pure, Except.pure] at hs
        subst hs
        exact updateFlags_after_write _ _ _ hdr (hv ▸ (hwf3 hwf2).1 _)
    · simp [dispatch, h] at hs
      subst hs
      unfold lea
      exact updateFlags_after_write _ _ _ hdr (Nat.mod_lt _ (by norm_num))
  · intro hop
    rcases hop with h | ⟨h, hv⟩
    · simp [dispatch, h] at hs
      subst hs
      rw [← hcond2]
      unfold jsr
      simp only
      split <;> simp [upd]
    · simp [dispatch, h, trap] at hs
      rcases hv with hv | hv
      · simp [hv] at hs
        subst hs
        rw [← hcond2]
        simp [get, getchar_snd, upd]
      · simp [hv] at hs
        subst hs
        rw [← hcond2]
        simp [inTrap, putc, printf, getchar_snd, upd]

/-- The amended C3 at `ADD R1, R1, #1` fetched at `0x3000`. -/
theorem step_flags_witness :
    exAdd.WF ∧ memRead (exAdd.reg PC) exAdd = .ok (0x1261, exAdd) ∧
    step platformLocal exAdd = .ok exAddAfter ∧
    ((0x1261 >>> 12 ∈ [ADD, AND, NOT, LD, LDI, LDR, LEA] →
      exAddAfter.reg COND = flagFor (exAddAfter.reg ((0x1261 >>> 9) &&& 7)) ∧
        (exAddAfter.reg COND = POS ∨ exAddAfter.reg COND = ZRO ∨ exAddAfter.reg COND = NEG)) ∧
    (0x1261 >>> 12 = JSR ∨
        (0x1261 >>> 12 = TRAP ∧ (0x1261 &&& 255 = GETC ∨ 0x1261 &&& 255 = IN)) →
      exAddAfter.reg COND = exAdd.reg COND)) :=
  ⟨machineWith_WF _ _ (by decide) (by decide), rfl, rfl,
    step_flags platformLocal exAdd exAdd exAddAfter 0x1261
      (machineWith_WF _ _ (by decide) (by decide)) rfl rfl⟩

/-! ## `LD` (C4) -/

/-- A fetch at `0xFE00`: the program counter is `0xFE00` and the word there is
`LD R1, #1`; the fetch itself rewrites the keyboard status word, so the step
executes the word `0` instead, leaving `R1 = 0` and `memory[0xFE00] = 0`. -/
theorem step_ld_at_KBSR :
    cexLd.word (cexLd.reg PC) = some 0x2201 ∧ 0x2201 >>> 12 = LD ∧
    ∃ s1, step platformZero cexLd = .ok s1 ∧ s1.reg R1 = 0 ∧ s1.memory 0xFE00 = 0 :=
  ⟨by decide, by decide, _, rfl, by decide, by decide⟩

/-- What a step does on an `LD` instruction `w` fetched at `p ≠ 0xFE00` in a
state with 16-bit contents: with `a` the sum, modulo `2^16`, of `p + 1` and the
value `ld` receives from `signExtension`, if `a ≠ 0xFE00` and memory holds the
word `v` at `a`, the destination register (bits 11..9) receives `v`, the
program counter becomes `p + 1`, the flags are those of the destination
register and memory is unchanged. -/
theorem step_ld (P : Platform) (s : Machine) (w v : Nat) (hwf : s.WF)
    (hpc : s.reg PC ≠ 0xFE00) (hw : s.word (s.reg PC) = some w) (hop : w >>> 12 = LD)
    (ha : ldAddress P s w ≠ 0xFE00) (hv : s.word (ldAddress P s w) = some v) :
    ∃ s1, step P s = .ok s1 ∧ s1.reg ((w >>> 9) &&& 7) = v ∧ s1.reg PC = s.reg PC + 1 ∧
      s1.reg COND = flagFor (s1.reg ((w >>> 9) &&& 7)) ∧ s1.memory = s.memory := by
  obtain ⟨hf, hlt, -⟩ := fetch_plain s w hw hpc
  have hpc1 : (s.reg PC + 1) % 65536 = s.reg PC + 1 :=
    Nat.mod_eq_of_lt (by simp only [UINT16_MAX] at hlt; omega)
  have hdr := and7_le (w >>> 9)
  have hdrC : (w >>> 9) &&& 7 ≠ COND := by simp only [COND]; omega
  have hdrP : PC ≠ (w >>> 9) &&& 7 := by simp only [PC]; omega
  unfold Machine.word at hv
  split at hv
  · rename_i halt
    injection hv with hv
    have hvlt : v < 65536 := hv ▸ hwf.1 _
    unfold ldAddress at ha halt hv
    have hm : memRead (s.reg PC + 1 + signExtension P (w &&& 511) 9)
        { s with reg := upd s.reg PC (s.reg PC + 1) }
          = .ok (v, { s with reg := upd s.reg PC (s.reg PC + 1) }) := by
      rw [memRead_plain _ _ ha halt]
      simp only [hv]
    refine ⟨updateFlags ((w >>> 9) &&& 7)
      { s with reg := upd (upd s.reg PC (s.reg PC + 1)) ((w >>> 9) &&& 7) v }, ?_, ?_, ?_, ?_, ?_⟩
    · simp only [step, hf, bind, Except.bind, hpc1]
      simp [dispatch, hop, ld, bind, Except.bind, upd_same, hm, pure, Except.pure]
    · rw [updateFlags_reg _ _ _ hdrC]
      simp [upd]
    · rw [updateFlags_reg _ _ _ (by decide)]
      simp [upd, hdrP]
    · exact updateFlags_after_write { s with reg := upd s.reg PC (s.reg PC + 1) } _ v hdrC hvlt
    · exact (updateFlags_frame _ _).1
  · cases hv

/-- C4, the code at `LD R1, #1` (`0x2201`) fetched at `0x3000`, with `0x1111` at
`0x3001` and `0x2222` at `0x3002`: the offset field is `1`, so the claim's
address is `0x3002`; `signExtension` hands nothing back, and where its call
yields `0` the step loads `R1 = 0x1111`, the word at the incremented program
counter `0x3001`. -/
theorem step_ld_reads_next_word :
    exLdNext.word (exLdNext.reg PC) = some 0x2201 ∧ 0x2201 >>> 12 = LD ∧
    (0x2201 >>> 9) &&& 7 = R1 ∧ 0x2201 &&& 511 = 1 ∧ signExtensionLocal 1 9 = 1 ∧
    exLdNext.memory 0x3001 = 0x1111 ∧ exLdNext.memory 0x3002 = 0x2222 ∧
    ∃ s1, step platformZero exLdNext = .ok s1 ∧ s1.reg R1 = 0x1111 ∧ s1.reg PC = 0x3001 :=
  ⟨by decide, by decide, by decide, by decide, by decide, by decide, by decide,
    _, rfl, by decide, by decide⟩

/-! ## `JSR` (C5) -/

/-- What `jsr` does: `R7` receives the program counter; in register mode (bit 11
clear) the program counter receives the value of `R1`, whatever bits 8..6 say;
otherwise it advances by the value received from `signExtension`. -/
theorem jsr_result (P : Platform) (instr : Nat) (s : Machine) :
    (jsr P instr s).reg R7 = s.reg PC ∧
    ((instr >>> 11) &&& 1 = 0 →
      (jsr P instr s).reg PC = s.reg R1) ∧
    ((instr >>> 11) &&& 1 ≠ 0 →
      (jsr P instr s).reg PC = (s.reg PC + signExtension P (instr &&& 2047) 11) % 65536) := by
  unfold jsr
  refine ⟨?_, ?_, ?_⟩
  · simp only
    split <;> simp [upd]
  · intro h
    simp only
    rw [if_pos h]
    simp [upd]
  · intro h
    simp only
    rw [if_neg h]
    simp [upd]

/-- C5, the code at `JSRR R2` (`0x4080`) with `R1 = 0x1111`, `R2 = 0x2222` and
the incremented program counter `0x3001`: bit 11 is clear and bits 8..6 name
`R2`, `R7` becomes `0x3001`, and the new program counter is `0x1111`, the
value of `R1`, not `0x2222`. -/
theorem jsr_base_register_ignored :
    (0x4080 >>> 11) &&& 1 = 0 ∧ (0x4080 >>> 6) &&& 7 = R2 ∧ exJsrr.reg R2 = 0x2222 ∧
    (jsr platformLocal 0x4080 exJsrr).reg R7 = 0x3001 ∧
    (jsr platformLocal 0x4080 exJsrr).reg PC = 0x1111 := by
  decide

/-! ## `ADD` (C6) -/

/-- What `add` does: the destination register receives the sum, modulo `2^16`,
of the first source register and, in immediate mode, the value received from
`signExtension`, otherwise the second source register. -/
theorem add_result (P : Platform) (instr : Nat) (s : Machine) :
    (add P instr s).reg ((instr >>> 9) &&& 7)
      = (s.reg ((instr >>> 6) &&& 7)
          + (if (instr >>> 5) &&& 1 = 1 then signExtension P (instr &&& 31) 5
              else s.reg (instr &&& 7))) % 65536 := by
  unfold add
  rw [updateFlags_reg _ _ _ (and7_ne_COND _)]
  split <;> simp [upd]

/-- C6, the code at `ADD R1, R1, #1` (`0x1261`) and `ADD R1, R1, #-1`
(`0x127F`) with `R1 = 0`: on a platform where the call of `signExtension`
yields `0` both leave `R1 = 0` with flags `ZRO`; on a platform that hands back
the computed word the second gives `R1 = 0xFFFF` with flags `NEG`. -/
theorem add_immediate_platform :
    (0x1261 >>> 5) &&& 1 = 1 ∧ 0x1261 &&& 31 = 1 ∧
    (add platformZero 0x1261 exAddImm).reg R1 = 0 ∧
    (add platformZero 0x1261 exAddImm).reg COND = ZRO ∧
    (add platformZero 0x127F exAddImm).reg R1 = 0 ∧
    (add platformZero 0x127F exAddImm).reg COND = ZRO ∧
    (add platformLocal 0x127F exAddImm).reg R1 = 0xFFFF ∧
    (add platformLocal 0x127F exAddImm).reg COND = NEG := by
  decide

/-! ## Scenario A (C7) -/

theorem loop_stopped (P : Platform) (fuel : Nat) (s : Machine) (h : s.state ≠ RUN) :
    loop P fuel s = .ok s := by
  cases fuel <;> simp [loop, h]

/-- Scenario A from the registers `main` really has (all zero), on every
platform: the run of the image `0x3000: 0x5020, 0xF025` ends after exactly two
iterations with `R0 = 0`, flags `ZRO`, run state `STOP` and result
`COMPLETED`. -/
theorem scenarioA (P : Platform) (stdin : List Nat) (name : String) (k : Nat) :
    ∃ s2, main P (k + 2) [(name, some (image 0x3000 [0x5020, 0xF025]))] (initial stdin) = .ok s2 ∧
      s2.reg R0 = 0 ∧ s2.reg COND = ZRO ∧ s2.state = STOP ∧ s2.res = COMPLETED ∧
      main P 1 [(name, some (image 0x3000 [0x5020, 0xF025]))] (initial stdin)
        = .error .outOfFuel := by
  obtain ⟨m, hr, hin, -⟩ := readFile_image_eq 0x3000 [0x5020, 0xF025]
    ⟨fun _ => 0, upd (fun _ => 0) PC PC_START, RUN, COMPLETED, stdin, [], false⟩ (by decide) (by decide)
  have h0 : m 0x3000 = 0x5020 := hin 0 (by decide)
  have h1 : m 0x3001 = 0xF025 := hin 1 (by decide)
  have hload : ∀ fuel, main P fuel [(name, some (image 0x3000 [0x5020, 0xF025]))] (initial stdin)
      = loop P fuel ⟨m, upd (fun _ => 0) PC PC_START, RUN, COMPLETED, stdin, [], false⟩ := by
    intro fuel
    simp [main, loadAll, readSourceFile, hr, bind, Except.bind, pure, Except.pure, initial]
  have hs1 : step P ⟨m, upd (fun _ => 0) PC PC_START, RUN, COMPLETED, stdin, [], false⟩
      = .ok ⟨m, upd (upd (upd (upd (fun _ => 0) PC PC_START) PC 0x3001) R0 0) COND ZRO, RUN,
          COMPLETED, stdin, [], false⟩ := by
    simp [step, memRead, bind, Except.bind, upd, h0, dispatch, and, updateFlags,
      show (40 &&& 7 : Nat) = 0 by decide, PC_START, UINT16_MAX, KBSR, R0, PC, COND, ZRO,
      ADD, AND, RUN]
  have hs2 : step P ⟨m, upd (upd (upd (upd (fun _ => 0) PC PC_START) PC 0x3001) R0 0) COND ZRO,
        RUN, COMPLETED, stdin, [], false⟩
      = .ok ⟨m, upd (upd (upd (upd (upd (fun _ => 0) PC PC_START) PC 0x3001) R0 0) COND ZRO)
          PC 0x3002, STOP, COMPLETED, stdin, [] ++ bytes "Execution completed", false⟩ := by
    simp [step, memRead, bind, Except.bind, upd, h1, dispatch, trap, halt, printf,
      show (61477 &&& 255 : Nat) = 37 by decide, PC_START, UINT16_MAX, KBSR, R0, PC, COND, ZRO,
      BR, ADD, LD, ST, JSR, AND, LDR, STR, NOT, LDI, STI, JMP, LEA, TRAP, GETC, OUT, PUTS,
      IN, PUTSP, HALT, STOP, RUN]
  refine ⟨⟨m, upd (upd (upd (upd (upd (fun _ => 0) PC PC_START) PC 0x3001) R0 0) COND ZRO)
    PC 0x3002, STOP, COMPLETED, stdin, [] ++ bytes "Execution completed", false⟩, ?_, ?_, ?_, ?_, ?_, ?_⟩
  · rw [hload]
    simp only [loop, if_true, hs1, hs2]
    exact loop_stopped _ _ _ (by simp)
  · simp [upd]
  · simp [upd]
  · rfl
  · rfl
  · rw [hload]
    simp [loop, hs1]

/-- C8, counterexample: a running state whose word at the program counter is
`0xD000`, opcode bits `1101`; after one step the run state is still `RUN` and
the result is still `COMPLETED`, not `OPNOTDEFINED`. -/
theorem step_reserved_keeps_running :
    cexRes.state = RUN ∧ cexRes.word (cexRes.reg PC) = some 0xD000 ∧ 0xD000 >>> 12 = 0b1101 ∧
    ∃ s1, step platformLocal cexRes = .ok s1 ∧ s1.state = RUN ∧ s1.res = COMPLETED ∧
      s1.res ≠ OPNOTDEFINED :=
  ⟨by decide, by decide, by decide, _, rfl, by decide, by decide, by decide⟩

/-- C8, amended: in a running state where the fetch at the program counter
yields a word with opcode bits `1101`, one step leaves the run state `RUN` and
the result code as it was, writes no output, and leaves memory, `R0 .. R7`
and the flags as they were at the fetch. -/
theorem step_reserved (P : Platform) (s s1 : Machine) (instr : Nat) (hrun : s.state = RUN)
    (hf : memRead (s.reg PC) s = .ok (instr, s1)) (hop : instr >>> 12 = 0b1101) :
    ∃ s2, step P s = .ok s2 ∧ s2.state = RUN ∧ s2.res = s.res ∧ s2.memory = s1.memory ∧
      (∀ r, r ≠ PC → s2.reg r = s1.reg r) ∧ s2.stdout = s.stdout := by
  obtain ⟨-, hstate, hres, hout, -, -⟩ := memRead_ok _ _ _ _ hf
  refine ⟨{ s1 with reg := upd s1.reg PC ((s1.reg PC + 1) % 65536) }, ?_, hstate.trans hrun, hres,
    rfl, fun r hr => by simp [upd, hr], hout⟩
  simp only [step, hf, bind, Except.bind]
  simp [dispatch, hop]

/-- The amended C8 at the word `0xD000` fetched at `0x3000`. -/
theorem step_reserved_witness :
    (cexRes.state = RUN ∧ memRead (cexRes.reg PC) cexRes = .ok (0xD000, cexRes) ∧
      0xD000 >>> 12 = 0b1101) ∧
    ∃ s2, step platformLocal cexRes = .ok s2 ∧ s2.state = RUN ∧ s2.res = cexRes.res ∧
      s2.memory = cexRes.memory ∧ (∀ r, r ≠ PC → s2.reg r = cexRes.reg r) ∧
      s2.stdout = cexRes.stdout :=
  ⟨⟨rfl, rfl, by decide⟩, step_reserved platformLocal cexRes cexRes 0xD000 rfl rfl (by decide)⟩

/-- The no-op of `RTI` and of the reserved opcode where the program counter
designates an element of `memory`: in a running state whose program counter
is not `0xFE00` and whose word there has opcode `1000` or `1101`, one step
changes only the program counter, to its successor modulo `2^16`: `R0 .. R7`,
the flags, memory, the input, the output and the result code are unchanged and
the run state stays `RUN`. -/
theorem step_rti_res (P : Platform) (s : Machine) (w : Nat) (hrun : s.state = RUN)
    (hpc : s.reg PC ≠ 0xFE00) (hw : s.word (s.reg PC) = some w)
    (hop : w >>> 12 = RTI ∨ w >>> 12 = RES) :
    ∃ s1, step P s = .ok s1 ∧ s1.reg PC = (s.reg PC + 1) % 65536 ∧
      (∀ r, r ≠ PC → s1.reg r = s.reg r) ∧ s1.memory = s.memory ∧
      s1.stdin = s.stdin ∧ s1.stdout = s.stdout ∧ s1.res = s.res ∧ s1.state = RUN := by
  obtain ⟨hf, -, -⟩ := fetch_plain s w hw hpc
  refine ⟨{ s with reg := upd s.reg PC ((s.reg PC + 1) % 65536) }, ?_, by simp [upd],
    fun r hr => by simp [upd, hr], rfl, rfl, rfl, rfl, hrun⟩
  simp only [step, hf, bind, Except.bind]
  rcases hop with h | h <;> simp [dispatch, h]

/-- The no-op at the word `0x8000` (`RTI`) fetched at `0x3000`. -/
theorem step_rti_res_witness :
    (exRti.state = RUN ∧ exRti.reg PC ≠ 0xFE00 ∧ exRti.word (exRti.reg PC) = some 0x8000 ∧
      (0x8000 >>> 12 = RTI ∨ 0x8000 >>> 12 = RES)) ∧
    ∃ s1, step platformLocal exRti = .ok s1 ∧ s1.reg PC = (exRti.reg PC + 1) % 65536 ∧
      (∀ r, r ≠ PC → s1.reg r = exRti.reg r) ∧ s1.memory = exRti.memory ∧
      s1.stdin = exRti.stdin ∧ s1.stdout = exRti.stdout ∧ s1.res = exRti.res ∧ s1.state = RUN :=
  ⟨by decide, step_rti_res platformLocal exRti 0x8000 rfl (by decide) rfl (by decide)⟩

/-- C9, the code at the program counter `0xFFFF`: the state is running, the
program counter is not `0xFE00`, and the word the address space would hold at
`0xFFFF` has opcode `1000`; `memory` has no element `0xFFFF`, so the fetch of the
step reads one element past the end of the array. -/
theorem step_at_top_address :
    exTop.state = RUN ∧ exTop.reg PC = 0xFFFF ∧ exTop.reg PC ≠ 0xFE00 ∧
    exTop.memory 0xFFFF >>> 12 = RTI ∧ exTop.word 0xFFFF = none ∧
    step platformZero exTop = .error .outOfBounds :=
  ⟨by decide, by decide, by decide, by decide, by decide, rfl⟩

/-! ## The top address (C10) -/

/-- C10, the code at the address `0xFFFF`: `memory` has `65535` elements, so
`memWrite(0xFFFF, v)` and `memRead(0xFFFF)` index one element past the end of
the array, for every value and every state. -/
theorem memory_top_outOfBounds (v : Nat) (s : Machine) :
    memWrite 0xFFFF v s = .error .outOfBounds ∧ memRead 0xFFFF s = .error .outOfBounds := by
  constructor
  · rfl
  · unfold memRead
    simp

/-! ## Flags in reachable states (C11) -/

theorem updateFlags_FlagsOK (dr : Nat) (s : Machine) : FlagsOK (updateFlags dr s) := by
  unfold FlagsOK updateFlags
  split
  · simp [upd]
  · split <;> simp [upd]

theorem FlagsOK_of_reg (s s1 : Machine) (h : s1.reg COND = s.reg COND) (hs : FlagsOK s) :
    FlagsOK s1 := by
  unfold FlagsOK at *
  rw [h]
  exact hs

/-- `memWrite` touches memory only. -/
theorem memWrite_reg (a v : Nat) (s s1 : Machine) (h : memWrite a v s = .ok s1) :
    s1.reg = s.reg ∧ s1.stdout = s.stdout ∧ s1.stdin = s.stdin ∧ s1.state = s.state := by
  unfold memWrite at h
  simp only at h
  split at h
  · injection h with h
    subst h
    exact ⟨rfl, rfl, rfl, rfl⟩
  · cases h

theorem putLoop_frame : ∀ (fuel c : Nat) (s s1 : Machine), putLoop fuel c s = .ok s1 →
    s1.reg = s.reg ∧ s1.memory = s.memory ∧ s1.state = s.state ∧ s1.stdin = s.stdin := by
  intro fuel
  induction fuel with
  | zero => intro c s s1 h; simp [putLoop] at h
  | succ n ih =>
    intro c s s1 h
    simp only [putLoop] at h
    split at h
    · split at h
      · exact ih (c + 1) (putc (s.memory c : Nat) s) s1 h
      · injection h with h
        subst h
        exact ⟨rfl, rfl, rfl, rfl⟩
    · cases h

theorem putspLoop_frame : ∀ (fuel c : Nat) (s s1 : Machine), putspLoop fuel c s = .ok s1 →
    s1.reg = s.reg ∧ s1.memory = s.memory ∧ s1.state = s.state ∧ s1.stdin = s.stdin := by
  intro fuel
  induction fuel with
  | zero => intro c s s1 h; simp [putspLoop] at h
  | succ n ih =>
    intro c s s1 h
    simp only [putspLoop] at h
    split at h
    · split at h
      · have := ih _ _ _ h
        revert this
        split <;> exact fun h => h
      · injection h with h
        subst h
        exact ⟨rfl, rfl, rfl, rfl⟩
    · cases h

theorem trap_reg_COND (P : Platform) (instr : Nat) (s s1 : Machine)
    (h : trap P instr s = .ok s1) : s1.reg COND = s.reg COND := by
  unfold trap at h
  generalize hp : put s = ps at h
  generalize hq : putsp s = qs at h
  simp only at h
  split_ifs at h
  · injection h with h; subst h; simp [get, getchar_snd, upd]
  · injection h with h; subst h; rfl
  · subst h; rw [(putLoop_frame _ _ _ _ hp).1]
  · injection h with h; subst h; simp [inTrap, putc, printf, getchar_snd, upd]
  · subst h; rw [(putspLoop_frame _ _ _ _ hq).1]
  · injection h with h; subst h; rfl
  · injection h with h; subst h; rfl

theorem ld_FlagsOK (P : Platform) (instr : Nat) (s s1 : Machine)
    (h : ld P instr s = .ok s1) : FlagsOK s1 := by
  simp only [ld, bind, Except.bind] at h
  split at h
  · cases h
  · injection h with h; subst h; exact updateFlags_FlagsOK _ _

theorem ldi_FlagsOK (P : Platform) (instr : Nat) (s s1 : Machine)
    (h : ldi P instr s = .ok s1) : FlagsOK s1 := by
  simp only [ldi, bind, Except.bind] at h
  split at h
  · cases h
  · split at h
    · cases h
    · injection h with h; subst h; exact updateFlags_FlagsOK _ _

theorem ldr_FlagsOK (P : Platform) (instr : Nat) (s s1 : Machine)
    (h : ldr P instr s = .ok s1) : FlagsOK s1 := by
  simp only [ldr, bind, Except.bind] at h
  split at h
  · cases h
  · injection h with h; subst h; exact updateFlags_FlagsOK _ _

theorem sti_reg (P : Platform) (instr : Nat) (s s1 : Machine)
    (h : sti P instr s = .ok s1) : s1.reg = s.reg := by
  simp only [sti, bind, Except.bind] at h
  split at h
  · cases h
  · rename_i r hm
    obtain ⟨ptr, s2⟩ := r
    simp only at h
    rw [(memWrite_reg _ _ _ _ h).1, (memRead_ok _ _ _ _ hm).1]

theorem br_reg_COND (P : Platform) (instr : Nat) (s : Machine) :
    (br P instr s).reg COND = s.reg COND := by
  unfold br
  simp only
  split
  · simp [upd]
  · rfl

theorem jsr_reg_COND (P : Platform) (instr : Nat) (s : Machine) :
    (jsr P instr s).reg COND = s.reg COND := by
  unfold jsr
  simp only
  split <;> simp [upd]

/-- No instruction leaves more than one flag set. -/
theorem dispatch_FlagsOK (P : Platform) (opcode instr : Nat) (s s1 : Machine)
    (hs : FlagsOK s) (h : dispatch P opcode instr s = .ok s1) : FlagsOK s1 := by
  unfold dispatch at h
  by_cases c : opcode = ADD
  · rw [if_pos c] at h
    injection h with h; subst h; exact updateFlags_FlagsOK _ _
  rw [if_neg c] at h
  clear c
  by_cases c : opcode = AND
  · rw [if_pos c] at h
    injection h with h; subst h; exact updateFlags_FlagsOK _ _
  rw [if_neg c] at h
  clear c
  by_cases c : opcode = NOT
  · rw [if_pos c] at h
    injection h with h; subst h; exact updateFlags_FlagsOK _ _
  rw [if_neg c] at h
  clear c
  by_cases c : opcode = BR
  · rw [if_pos c] at h
    injection h with h; subst h; exact FlagsOK_of_reg s _ (br_reg_COND _ _ _) hs
  rw [if_neg c] at h
  clear c
  by_cases c : opcode = JMP
  · rw [if_pos c] at h
    injection h with h; subst h; exact FlagsOK_of_reg s _ (by simp [jmp, upd]) hs
  rw [if_neg c] at h
  clear c
  by_cases c : opcode = JSR
  · rw [if_pos c] at h
    injection h with h; subst h; exact FlagsOK_of_reg s _ (jsr_reg_COND _ _ _) hs
  rw [if_neg c] at h
  clear c
  by_cases c : opcode = LD
  · rw [if_pos c] at h
    exact ld_FlagsOK _ _ _ _ h
  rw [if_neg c] at h
  clear c
  by_cases c : opcode = LDI
  · rw [if_pos c] at h
    exact ldi_FlagsOK _ _ _ _ h
  rw [if_neg c] at h
  clear c
  by_cases c : opcode = LDR
  · rw [if_pos c] at h
    exact ldr_FlagsOK _ _ _ _ h
  rw [if_neg c] at h
  clear c
  by_cases c : opcode = LEA
  · rw [if_pos c] at h
    injection h with h; subst h; exact updateFlags_FlagsOK _ _
  rw [if_neg c] at h
  clear c
  by_cases c : opcode = ST
  · rw [if_pos c] at h
    exact FlagsOK_of_reg s _ (by rw [(memWrite_reg _ _ _ _ h).1]) hs
  rw [if_neg c] at h
  clear c
  by_cases c : opcode = STI
  · rw [if_pos c] at h
    exact FlagsOK_of_reg s _ (by rw [sti_reg _ _ _ _ h]) hs
  rw [if_neg c] at h
  clear c
  by_cases c : opcode = STR
  · rw [if_pos c] at h
    exact FlagsOK_of_reg s _ (by rw [(memWrite_reg _ _ _ _ h).1]) hs
  rw [if_neg c] at h
  clear c
  by_cases c : opcode = TRAP
  · rw [if_pos c] at h
    exact FlagsOK_of_reg s _ (trap_reg_COND _ _ _ _ h) hs
  rw [if_neg c] at h
  clear c
  by_cases c : opcode = RES
  · rw [if_pos c] at h
    injection h with h; subst h; exact hs
  rw [if_neg c] at h
  clear c
  by_cases c : opcode = RTI
  · rw [if_pos c] at h
    injection h with h; subst h; exact hs
  rw [if_neg c] at h
  injection h with h; subst h; exact hs

theorem step_FlagsOK (P : Platform) (s s1 : Machine) (hs : FlagsOK s)
    (h : step P s = .ok s1) : FlagsOK s1 := by
  simp only [step, bind, Except.bind] at h
  split at h
  · cases h
  · rename_i r hm
    obtain ⟨instr, s2⟩ := r
    simp only at h
    have hreg := (memRead_ok _ _ _ _ hm).1
    refine dispatch_FlagsOK P _ _ _ _ ?_ h
    exact FlagsOK_of_reg s _ (by simp [upd, hreg]) hs

theorem runFor_FlagsOK (P : Platform) : ∀ (n : Nat) (s s1 : Machine), FlagsOK s →
    runFor P n s = .ok s1 → FlagsOK s1 := by
  intro n
  induction n with
  | zero =>
    intro s s1 hs h
    simp only [runFor] at h
    injection h with h
    subst h
    exact hs
  | succ n ih =>
    intro s s1 hs h
    simp only [runFor] at h
    split at h
    · split at h
      · rename_i s2 hstep
        exact ih _ _ (step_FlagsOK P _ _ hs hstep) h
      · cases h
    · injection h with h
      subst h
      exact hs

/-- `readFile` touches memory only. -/
theorem readFile_reg (fp : List Nat) (s s1 : Machine) (h : readFile fp s = .ok s1) :
    s1.reg = s.reg ∧ s1.state = s.state ∧ s1.res = s.res ∧ s1.stdin = s.stdin ∧
      s1.stdout = s.stdout := by
  unfold readFile at h
  split at h
  · simp only [bind, Except.bind] at h
    split at h
    · cases h
    · split at h
      · cases h
      · injection h with h
        subst h
        exact ⟨rfl, rfl, rfl, rfl, rfl⟩
  · cases h

/-- Loading the images leaves the registers as they were. -/
theorem loadAll_reg : ∀ (args : List (String × Option (List Nat))) (s s1 : Machine),
    loadAll args s = .ok s1 → s1.reg = s.reg := by
  intro args
  induction args with
  | nil =>
    intro s s1 h
    simp only [loadAll] at h
    injection h with h
    subst h
    rfl
  | cons a more ih =>
    intro s s1 h
    obtain ⟨name, source⟩ := a
    simp only [loadAll] at h
    split at h
    · cases source with
      | none =>
        simp only [readSourceFile, if_true] at h
        have h2 := ih _ _ h
        exact h2
      | some fp =>
        simp only [readSourceFile, bind, Except.bind] at h
        cases hr : readFile fp s with
        | error e => simp [hr] at h
        | ok s2 =>
          simp only [hr, pure, Except.pure] at h
          have := (readFile_reg _ _ _ hr).1
          rw [← this]
          exact ih _ _ (by simpa using h)
    · injection h with h
      subst h
      rfl

/-- C11, counterexample: when the loop is entered after loading the image
`0x3000: 0x5020, 0xF025`, before any instruction has run, the flags register
holds `0`, which is none of `POS`, `ZRO`, `NEG`. -/
theorem flags_zero_at_start :
    ∃ s0, loadAll [("a.obj", some (image 0x3000 [0x5020, 0xF025]))] (entry []) = .ok s0 ∧
      runFor platformLocal 0 s0 = .ok s0 ∧ s0.reg COND = 0 ∧
      s0.reg COND ≠ POS ∧ s0.reg COND ≠ ZRO ∧ s0.reg COND ≠ NEG :=
  ⟨_, rfl, rfl, by decide, by decide, by decide, by decide⟩

/-- C11, amended: the flags register holds `0` when the loop is entered, and in
every state the loop passes through from there it holds `0` or exactly one of
`POS` (1), `ZRO` (2), `NEG` (4): it never has more than one bit set. -/
theorem flags_reachable (P : Platform) (stdin : List Nat)
    (args : List (String × Option (List Nat))) (n : Nat) (s0 s : Machine)
    (hl : loadAll args (entry stdin) = .ok s0) (hr : runFor P n s0 = .ok s) :
    s0.reg COND = 0 ∧
      (s.reg COND = 0 ∨ s.reg COND = POS ∨ s.reg COND = ZRO ∨ s.reg COND = NEG) := by
  have h0 : s0.reg COND = 0 := by
    rw [loadAll_reg _ _ _ hl]
    simp [entry, initial, upd]
  exact ⟨h0, runFor_FlagsOK P n s0 s (Or.inl h0) hr⟩

/-- The amended C11 after one iteration on the image `0x3000: 0x5020, 0xF025`. -/
theorem flags_reachable_witness :
    ∃ s0 s, loadAll [("a.obj", some (image 0x3000 [0x5020, 0xF025]))] (entry []) = .ok s0 ∧
      runFor platformLocal 1 s0 = .ok s ∧ s0.reg COND = 0 ∧
      (s.reg COND = 0 ∨ s.reg COND = POS ∨ s.reg COND = ZRO ∨ s.reg COND = NEG) :=
  ⟨_, _, rfl, rfl, flags_reachable platformLocal []
    [("a.obj", some (image 0x3000 [0x5020, 0xF025]))] 1 _ _ rfl rfl⟩

/-! ## Keyboard status (C12) -/

/-- C12, counterexample: no byte is pending, the input is at its end of file
and the keyboard data word holds `0x0041`; `select` reports the stream ready,
so `memRead(0xFE00)` returns `0x8000`, leaves `0x8000` in the keyboard status
word and stores `EOF`, `0xFFFF`, in the keyboard data word. -/
theorem memRead_KBSR_at_eof :
    exEof.stdin = [] ∧ exEof.memory 0xFE02 = 0x41 ∧
    ∃ s1, memRead 0xFE00 exEof = .ok (0x8000, s1) ∧ s1.memory 0xFE00 = 0x8000 ∧
      s1.memory 0xFE02 = 0xFFFF :=
  ⟨by decide, by decide, _, rfl, by decide, by decide⟩

/-- C12, amended: when no input byte is pending and the input has not reached
its end of file, `memRead(0xFE00)` succeeds, sets the keyboard status word to
`0x0000` and returns `0x0000`, consumes no input, and leaves the keyboard data
word at `0xFE02`, every other memory word, the registers and the output
unchanged. -/
theorem memRead_KBSR_idle (s : Machine) (hin : s.stdin = []) (heof : s.stdinEof = false) :
    ∃ s1, memRead 0xFE00 s = .ok (0, s1) ∧ s1.memory 0xFE00 = 0 ∧ s1.stdin = s.stdin ∧
      s1.stdinEof = s.stdinEof ∧ s1.memory 0xFE02 = s.memory 0xFE02 ∧
      (∀ a, a ≠ 0xFE00 → s1.memory a = s.memory a) ∧ s1.reg = s.reg ∧
      s1.stdout = s.stdout := by
  have hk : keyCheck s = false := by simp [keyCheck, hin, heof]
  refine ⟨{ s with memory := upd s.memory KBSR 0 }, ?_, by simp [upd], rfl, rfl, by simp [upd],
    fun a ha => by simp [upd, ha], rfl, rfl⟩
  unfold memRead
  simp [hk, upd, UINT16_MAX]

/-- The amended C12 where the keyboard status word holds `0x8000` and the
keyboard data word `0x0041` beforehand: the status word is cleared, the data
word stays. -/
theorem memRead_KBSR_idle_witness :
    (exIdle.stdin = [] ∧ exIdle.stdinEof = false ∧ exIdle.memory 0xFE00 = 0x8000 ∧
      exIdle.memory 0xFE02 = 0x41) ∧
    ∃ s1, memRead 0xFE00 exIdle = .ok (0, s1) ∧ s1.memory 0xFE00 = 0 ∧
      s1.stdin = exIdle.stdin ∧ s1.stdinEof = exIdle.stdinEof ∧
      s1.memory 0xFE02 = exIdle.memory 0xFE02 ∧
      (∀ a, a ≠ 0xFE00 → s1.memory a = exIdle.memory a) ∧ s1.reg = exIdle.reg ∧
      s1.stdout = exIdle.stdout :=
  ⟨by decide, memRead_KBSR_idle exIdle rfl rfl⟩

/-! ## `BR` (C13) -/

/-- What `br` does: when the mask (bits 11..9) meets the flags the program
counter advances by the value received from `signExtension`, modulo `2^16`,
otherwise it stays; no other register and no memory word changes. -/
theorem br_result (P : Platform) (instr : Nat) (s : Machine) :
    (br P instr s).reg PC
        = (if ((instr >>> 9) &&& 7) &&& s.reg COND ≠ 0
            then (s.reg PC + signExtension P (instr &&& 511) 9) % 65536 else s.reg PC) ∧
      (∀ r, r ≠ PC → (br P instr s).reg r = s.reg r) ∧ (br P instr s).memory = s.memory := by
  unfold br
  simp only
  split
  · exact ⟨by simp [upd], fun r hr => by simp [upd, hr], rfl⟩
  · exact ⟨rfl, fun _ _ => rfl, rfl⟩

/-- C13, the code at `BRnzp #2` (`0x0E02`) with flags `ZRO` and the incremented
program counter `0x3001`: the mask meets the flags and the offset field is `2`;
on a platform where the call of `signExtension` yields `0` the program counter
stays `0x3001`, on one that hands back the computed word it becomes `0x3003`. -/
theorem br_offset_platform :
    ((0x0E02 >>> 9) &&& 7) &&& exBr.reg COND ≠ 0 ∧ 0x0E02 &&& 511 = 2 ∧ exBr.reg PC = 0x3001 ∧
    (br platformZero 0x0E02 exBr).reg PC = 0x3001 ∧
    (br platformLocal 0x0E02 exBr).reg PC = 0x3003 := by
  decide

/-! ## The `IN` trap (C14) -/

/-- A byte stored in a plain `char` and promoted back to `int`. -/
theorem toChar_byte (P : Platform) (b : Nat) (hb : b < 256) :
    toChar P (b : Int) = (if P.charSigned = true ∧ 128 ≤ b then (b : Int) - 256 else b) := by
  have e : ((b : Int) % 256) = b := by omega
  unfold toChar
  simp only [e, Bool.and_eq_true, decide_eq_true_eq]
  by_cases hc : P.charSigned = true <;> by_cases h128 : 128 ≤ b
  · have : (128 : Int) ≤ b := by omega
    simp [hc, h128, this]
  · have : ¬ (128 : Int) ≤ b := by omega
    simp [hc, h128, this]
  · simp [hc, h128]
  · simp [hc, h128]

/-- What `in` does with the input byte `b`: the prompt and `b` are written to
the output, and `R0` receives `b`, with bits 15..8 set when plain `char` is
signed and `b ≥ 0x80`. -/
theorem inTrap_result (P : Platform) (s : Machine) (b : Nat) (rest : List Nat)
    (hin : s.stdin = b :: rest) (hb : b < 256) :
    (inTrap P s).reg R0 = (if P.charSigned = true ∧ 128 ≤ b then 0xFF00 + b else b) ∧
    (inTrap P s).stdout = s.stdout ++ bytes "Enter a character ==> " ++ [b] ∧
    (inTrap P s).stdin = rest := by
  have hmod : b % 256 = b := Nat.mod_eq_of_lt hb
  have hg : getchar (printf "Enter a character ==> " s)
      = ((b : Int), { printf "Enter a character ==> " s with stdin := rest }) := by
    simp [getchar, printf, hin, hmod]
  unfold inTrap
  simp only [hg, toChar_byte P b hb]
  by_cases hc : P.charSigned = true ∧ 128 ≤ b
  · simp only [hc, and_self, if_true]
    refine ⟨?_, ?_, rfl⟩
    · simp only [putc, upd_same, toU16]
      omega
    · simp only [putc, printf]
      have : (((b : Int) - 256) % 256).toNat = b := by omega
      rw [this]
  · simp only [hc, if_false]
    refine ⟨?_, ?_, rfl⟩
    · simp only [putc, upd_same, toU16]
      omega
    · simp only [putc, printf]
      have : ((b : Int) % 256).toNat = b := by omega
      rw [this]

/-- C14, the code at the input byte `0x80` where plain `char` is signed: the
`IN` trap echoes `0x80` after its prompt and leaves `R0 = 0xFF80`; the `GETC`
trap on the same input leaves `R0 = 0x0080`. -/
theorem inTrap_high_byte :
    exIn.stdin = [0x80] ∧ platformLocal.charSigned = true ∧
    (inTrap platformLocal exIn).reg R0 = 0xFF80 ∧
    (inTrap platformLocal exIn).stdout = bytes "Enter a character ==> " ++ [0x80] ∧
    (get exIn).reg R0 = 0x0080 := by
  decide

/-! ## The `PUTS` trap (C15) -/

/-- `putc` of a word writes its low byte. -/
theorem putc_word (w : Nat) (s : Machine) :
    putc (w : Nat) s = { s with stdout := s.stdout ++ [w % 256] } := by
  unfold putc
  have : ((w : Int) % 256).toNat = w % 256 := by omega
  rw [this]

/-- The loop of `put` from index `c` up to a zero word at `k`, the words in
between being non-zero: the low bytes of the words `c .. k - 1` are written. -/
theorem putLoop_spec (k : Nat) (hk : k < UINT16_MAX) : ∀ (d c fuel : Nat) (s : Machine),
    c + d = k → d < fuel → s.memory k = 0 → (∀ a, c ≤ a → a < k → s.memory a ≠ 0) →
    putLoop fuel c s
      = .ok { s with stdout := s.stdout ++ (List.range' c d).map (fun a => s.memory a % 256) } := by
  intro d
  induction d with
  | zero =>
    intro c fuel s hc hf hz _
    obtain ⟨f, rfl⟩ : ∃ f, fuel = f + 1 := ⟨fuel - 1, by omega⟩
    have hck : c = k := by omega
    subst hck
    simp [putLoop, hk, hz]
  | succ d ih =>
    intro c fuel s hc hf hz hnz
    obtain ⟨f, rfl⟩ : ∃ f, fuel = f + 1 := ⟨fuel - 1, by omega⟩
    have hcl : c < UINT16_MAX := by omega
    have hcn : s.memory c ≠ 0 := hnz c (le_refl _) (by omega)
    simp only [putLoop, hcl, if_true, hcn, ne_eq, not_false_eq_true]
    rw [putc_word]
    rw [ih (c + 1) f { s with stdout := s.stdout ++ [s.memory c % 256] } (by omega) (by omega) hz
      (fun a h1 h2 => hnz a (by omega) h2)]
    simp [List.range'_succ]

/-- `put` when the first zero word at or after `R0` is at the index `k` of the
array. -/
theorem put_least (s : Machine) (k : Nat) (hr : s.reg R0 ≤ k) (hk : k < UINT16_MAX)
    (hz : s.memory k = 0) (hnz : ∀ a, s.reg R0 ≤ a → a < k → s.memory a ≠ 0) :
    put s = .ok { s with stdout := s.stdout ++
      (List.range' (s.reg R0) (k - s.reg R0)).map (fun a => s.memory a % 256) } := by
  unfold put
  exact putLoop_spec k hk (k - s.reg R0) (s.reg R0) 65536 s (by omega)
    (by simp only [UINT16_MAX] at hk; omega) hz hnz

/-- `put` when a zero word follows `R0` inside the array: in a state where some
element `memory[a]` with `a ≥ R0` is zero, let `k` be the least address `≥ R0`
holding zero; `put` succeeds and appends to the output exactly the low bytes of
the words at `R0, R0 + 1, ..., k - 1`, in order (nothing for the zero word),
and changes no register and no memory word. -/
theorem put_outputs_string (s : Machine) (a : Nat) (ha : s.reg R0 ≤ a)
    (hz : s.word a = some 0) :
    ∃ k, s.reg R0 ≤ k ∧ k ≤ a ∧ s.memory k = 0 ∧
      (∀ j, s.reg R0 ≤ j → j < k → s.memory j ≠ 0) ∧
      put s = .ok { s with stdout := s.stdout ++
        (List.range' (s.reg R0) (k - s.reg R0)).map (fun j => s.memory j % 256) } := by
  unfold Machine.word at hz
  split at hz
  · rename_i hlt
    injection hz with hz
    have hex : ∃ j, s.reg R0 ≤ j ∧ s.memory j = 0 := ⟨a, ha, hz⟩
    have hle : Nat.find hex ≤ a := Nat.find_le ⟨ha, hz⟩
    have hmin : ∀ j, s.reg R0 ≤ j → j < Nat.find hex → s.memory j ≠ 0 :=
      fun j h1 h2 h3 => Nat.find_min hex h2 ⟨h1, h3⟩
    exact ⟨Nat.find hex, (Nat.find_spec hex).1, hle, (Nat.find_spec hex).2, hmin,
      put_least s _ (Nat.find_spec hex).1 (lt_of_le_of_lt hle hlt) (Nat.find_spec hex).2 hmin⟩
  · cases hz

/-- `put` at the string `"HI"` stored at `0x3003`, with a zero word known at
`0x3007`. -/
theorem put_outputs_string_witness :
    (exPutsHi.reg R0 ≤ 0x3007 ∧ exPutsHi.word 0x3007 = some 0) ∧
    ∃ k, exPutsHi.reg R0 ≤ k ∧ k ≤ 0x3007 ∧ exPutsHi.memory k = 0 ∧
      (∀ j, exPutsHi.reg R0 ≤ j → j < k → exPutsHi.memory j ≠ 0) ∧
      put exPutsHi = .ok { exPutsHi with stdout := exPutsHi.stdout ++
        (List.range' (exPutsHi.reg R0) (k - exPutsHi.reg R0)).map (fun j => exPutsHi.memory j % 256) } :=
  ⟨by decide, put_outputs_string exPutsHi 0x3007 (by decide) (by decide)⟩

/-- C15, the code where the first zero word at or after `R0` is at `0xFFFF`:
`R0 = 0xFFFE`, the word at `0xFFFE` is `'A'` and the address space would hold
zero at `0xFFFF`; `memory` has no element `0xFFFF`, so after `'A'` the pointer of
`put` walks off the end of the array. -/
theorem put_zero_at_top :
    exPuts.reg R0 = 0xFFFE ∧ exPuts.memory 0xFFFE = 0x41 ∧ exPuts.memory 0xFFFF = 0 ∧
    exPuts.word 0xFFFF = none ∧ put exPuts = .error .outOfBounds :=
  ⟨by decide, by decide, by decide, by decide, rfl⟩

/-! ## Scenario B (C16) -/

/-- C16, the code on the image of Scenario B: `LEA R0, #2` adds to the program
counter the value of a call of `signExtension`, which hands nothing back; where
the call yields `0`, `R0` becomes `0x3001`, so `PUTS` starts at the `TRAP`
words and the complete output of the run is the bytes `0x22`, `0x25`, then
`"HI"`, then the notice `"Execution completed"` that `halt` prints: 23 bytes. -/
theorem scenarioB_output :
    signExtension platformZero (0xE002 &&& 511) 9 = 0 ∧
    ∃ s, main platformZero 3 [("hi.obj", some (image 0x3000 scenarioB))] (initial []) = .ok s ∧
      s.state = STOP ∧ s.reg R0 = 0x3001 ∧
      s.stdout = [0x22, 0x25] ++ bytes "HI" ++ bytes "Execution completed" ∧
      s.stdout.length = 23 ∧ (bytes "HI").length = 2 :=
  ⟨by decide, _, rfl, by decide, by decide, rfl, by decide, by decide⟩

/-! ## Exit statuses (C17) -/

/-- C17, the code at an interrupt: the status `handleInterrupt` passes to
`exit` is `-2`, the value of `LOADFAIL`; the four values `main` returns are
`0`, `-1`, `-2`, `-3`. -/
theorem handleInterrupt_status_is_LOADFAIL :
    handleInterrupt 2 = LOADFAIL ∧ COMPLETED = 0 ∧ WRONGSYNTAX = -1 ∧ LOADFAIL = -2 ∧
    OPNOTDEFINED = -3 := by
  decide

/-! ## Unknown trap vectors (C18) -/

/-- C18: for a `TRAP` instruction whose vector (bits 7..0) is none of `0x20`,
`0x21`, `0x22`, `0x23`, `0x24`, `0x25`, `trap` returns the state it was given:
`R0 .. R7`, the program counter, the flags, memory, the run state, the
pending input and the output are all unchanged. -/
theorem trap_unknown_vector (P : Platform) (instr : Nat) (s : Machine)
    (hv : instr &&& 255 ∉ [0x20, 0x21, 0x22, 0x23, 0x24, 0x25]) :
    trap P instr s = .ok s := by
  simp only [List.mem_cons, List.mem_singleton, List.not_mem_nil, or_false, not_or] at hv
  obtain ⟨h0, h1, h2, h3, h4, h5⟩ := hv
  unfold trap
  simp only [GETC, OUT, PUTS, IN, PUTSP, HALT, h0, h1, h2, h3, h4, h5, if_false]

/-- C18 at `TRAP x26`. -/
theorem trap_unknown_vector_witness :
    0xF026 &&& 255 ∉ [0x20, 0x21, 0x22, 0x23, 0x24, 0x25] ∧
    trap platformLocal 0xF026 exIn = .ok exIn :=
  ⟨by decide, trap_unknown_vector platformLocal 0xF026 exIn (by decide)⟩

/-! ## Stores (C19) -/

/-- What `st` does when the address it forms lies in the array: the source
register (bits 11..9) is stored at the program counter plus the value received
from `signExtension`, modulo `2^16`, and nothing else changes. -/
theorem st_result (P : Platform) (instr a : Nat) (s : Machine)
    (hdef : a = (s.reg PC + signExtension P (instr &&& 511) 9) % 65536)
    (ha : a < UINT16_MAX) :
    st P instr s = .ok { s with memory := upd s.memory a (s.reg ((instr >>> 9) &&& 7) % 65536) } := by
  subst hdef
  unfold st memWrite
  simp only [ha, if_true]

/-- What `str` does when the address it forms lies in the array: the source
register is stored at the base register (bits 8..6) plus the value received
from `signExtension`, modulo `2^16`, and nothing else changes. -/
theorem str_result (P : Platform) (instr a : Nat) (s : Machine)
    (hdef : a = (s.reg ((instr >>> 6) &&& 7) + signExtension P (instr &&& 63) 6) % 65536)
    (ha : a < UINT16_MAX) :
    str P instr s = .ok { s with memory := upd s.memory a (s.reg ((instr >>> 9) &&& 7) % 65536) } := by
  subst hdef
  unfold str memWrite
  simp only [ha, if_true]

/-- What `sti` does when the pointer location is a word of the array other
than `KBSR` and the pointer it holds lies in the array: the source register is
stored at the address held at the program counter plus the value received from
`signExtension`, modulo `2^16`, and nothing else changes. -/
theorem sti_result (P : Platform) (instr p a : Nat) (s : Machine)
    (hp : p = (s.reg PC + signExtension P (instr &&& 511) 9) % 65536)
    (hp1 : p ≠ KBSR) (hp2 : p < UINT16_MAX) (hdef : a = s.memory p % 65536)
    (ha : a < UINT16_MAX) :
    sti P instr s = .ok { s with memory := upd s.memory a (s.reg ((instr >>> 9) &&& 7) % 65536) } := by
  subst hp
  subst hdef
  unfold sti
  simp only [bind, Except.bind]
  rw [memRead_plain _ _ hp1 hp2]
  unfold memWrite
  simp only [ha, if_true]

/-- C19, the code at `ST R1, #1` (`0x3201`) with `R1 = 0xBEEF` and the
incremented program counter `0x3001`: on a platform where the call of
`signExtension` yields `0` the value is stored at `0x3001` and the word at
`0x3002` stays `0`; on one that hands back the computed word it is stored at
`0x3002`. -/
theorem st_offset_platform :
    0x3201 >>> 12 = ST ∧ (0x3201 >>> 9) &&& 7 = R1 ∧ 0x3201 &&& 511 = 1 ∧
    exSt.reg PC = 0x3001 ∧ exSt.reg R1 = 0xBEEF ∧
    (∃ s1, st platformZero 0x3201 exSt = .ok s1 ∧ s1.memory 0x3001 = 0xBEEF ∧
      s1.memory 0x3002 = 0) ∧
    (∃ s1, st platformLocal 0x3201 exSt = .ok s1 ∧ s1.memory 0x3001 = 0 ∧
      s1.memory 0x3002 = 0xBEEF) :=
  ⟨by decide, by decide, by decide, by decide, by decide,
    ⟨_, rfl, by decide, by decide⟩, ⟨_, rfl, by decide, by decide⟩⟩

/-! ## Images that do not fit (C20) -/

/-- `fread` delivers the first `count` words of the stream, in host order. -/
theorem fread_take (ws : List Nat) : ∀ count,
    fread count (encodeWords ws)
      = (ws.take count).map (fun w => w / 256 % 256 % 256 + 256 * (w % 256 % 256)) := by
  induction ws with
  | nil => intro count; cases count <;> simp [encodeWords, fread]
  | cons w ws ih =>
    intro count
    cases count with
    | zero => simp [fread]
    | succ k =>
      simp only [encodeWords, fread, List.take_succ_cons, List.map_cons]
      rw [ih k]

/-- `readFile` on an image with at least as many words as there are elements of
`memory` from the load address on: it succeeds, the words that land below
`0xFFFF` are loaded, and every word below the load address is unchanged. -/
theorem readFile_image_top (o : Nat) (ws : List Nat) (s : Machine)
    (ho : o ≤ 0xFFFF) (hn : 0xFFFF - o ≤ ws.length) (hws : ∀ w ∈ ws, w < 65536) :
    ∃ m, readFile (image o ws) s = .ok { s with memory := m } ∧
      (∀ i, (h : i < ws.length) → o + i < 0xFFFF → m (o + i) = ws[i]) ∧
      (∀ a, a < o ∨ 0xFFFF ≤ a → m a = s.memory a) := by
  have ho' : o < 65536 := by omega
  have hstart := convertEndianess_hostOrder o ho'
  have hlen : (ws.take (UINT16_MAX - o)).length = UINT16_MAX - o := by
    simp only [List.length_take, UINT16_MAX]; omega
  simp only [image, bigEndian, List.cons_append, List.nil_append, readFile, hstart]
  rw [fread_take ws _]
  rw [store_ok _ _ _ (by simp only [List.length_map, hlen, UINT16_MAX]; omega)]
  simp only [List.length_map, hlen, bind, Except.bind, pure, Except.pure]
  rw [convertLoop_ok _ _ _ (by simp only [UINT16_MAX]; omega)]
  refine ⟨_, rfl, ?_, ?_⟩
  · intro i hi hlt
    have h1 : o ≤ o + i ∧ o + i < o + (UINT16_MAX - o) := by simp only [UINT16_MAX]; omega
    simp only [if_pos h1, Nat.add_sub_cancel_left]
    have hi2 : i < (List.map (fun w => w / 256 % 256 % 256 + 256 * (w % 256 % 256))
        (ws.take (UINT16_MAX - o))).length := by
      simp only [List.length_map, hlen, UINT16_MAX]; omega
    rw [List.getD_eq_getElem _ _ hi2]
    simp only [List.getElem_map, List.getElem_take]
    exact convertEndianess_hostOrder _ (hws _ (List.getElem_mem _))
  · intro a ha
    have h1 : ¬ (o ≤ a ∧ a < o + (UINT16_MAX - o)) := by simp only [UINT16_MAX]; omega
    simp only [if_neg h1]

/-- C20, the code at the load address `0xFFFE` with three words: `fread` is asked
for `0xFFFF - 0xFFFE = 1` item, so only `memory[0xFFFE]` is loaded; the word
meant for address `0xFFFF` is dropped, and `memory` has no element there. -/
theorem readFile_drops_top_word :
    0xFFFE + [0x1111, 0x2222, 0x3333].length > 0x10000 ∧
    fread (UINT16_MAX - 0xFFFE) (encodeWords [0x1111, 0x2222, 0x3333]) = [0x1111 / 256 + 256 * (0x1111 % 256)] ∧
    ∃ s1, readFile (image 0xFFFE [0x1111, 0x2222, 0x3333]) (initial []) = .ok s1 ∧
      s1.memory 0xFFFE = 0x1111 ∧ s1.word 0xFFFF = none :=
  ⟨by decide, by decide, _, rfl, by decide, by decide⟩

end LC3
